import Mathlib

/-!
# Verification of the NFC-e receipt tracker core

A shallow embedding of the receipt-processing queue, the dual-persistence
synchronization model, the Google Apps Script tabular backend, and the
shopping-list simulator of the repository, together with proofs of the
specification's testable properties.

Conventions of the embedding:
* Monetary amounts (JS `number`) are modelled as `Rat`.
* Optional TS fields (`url?`, `storeName?`, ...) are modelled as `Option`.
* The optional boolean flags `isSynced?`/`syncing?` are modelled as `Bool`
  with default `false`: the code only ever tests their truthiness, and
  `undefined` is falsy.
* JS `Map`s and `Set`s are modelled as association lists / lists kept in
  insertion order, matching the iteration order JS guarantees for them.
* Asynchronous completions (JSONP responses, promise resolutions) are
  modelled by passing the eventual outcome as an explicit argument to the
  function that models the corresponding callback.
-/

namespace NfFacil

/-- Lifecycle status of a receipt (`'processing' | 'completed' | 'error'`
in `gemini.service.ts`). -/
inductive Status where
  | processing
  | completed
  | error
deriving DecidableEq, Repr

/-- One purchased line item (`ReceiptItem` in `gemini.service.ts`). -/
structure ReceiptItem where
  name : String
  quantity : Rat
  unit : String
  unitPrice : Rat
  totalPrice : Rat
  category : String
deriving DecidableEq, Repr

/-- One receipt record (`ReceiptData` in `gemini.service.ts`). -/
structure ReceiptData where
  id : String
  url : Option String := none
  status : Status
  storeName : Option String := none
  storeCnpj : Option String := none
  storeAddress : Option String := none
  date : Option String := none
  totalAmount : Option Rat := none
  items : Option (List ReceiptItem) := none
  error : Option String := none
  payer : Option String := none
  isSynced : Bool := false
  syncing : Bool := false
deriving DecidableEq, Repr

/-- Truthiness of an optional string field in JS: `undefined` and the empty
string are falsy, every other string is truthy. -/
def strTruthy : Option String → Bool
  | none => false
  | some s => !(s == "")

/-- Response of the backend `save`/`delete` actions as typed by the client
(`{ success: boolean; id: string }`). -/
structure SaveResponse where
  success : Bool
  id : String
deriving DecidableEq, Repr

namespace ReceiptService

/-- `addReceipt(url)` (receipt.service.ts lines 67-88), restricted to its
effect on the in-memory list.  `freshId` stands for the value of
`self.crypto.randomUUID()`.  The duplicate check is
`this.receipts().find(r => r.url === url)`: strict equality against the
string `url`, so it matches exactly the records whose `url` is present and
equal to it. -/
def addReceipt (receipts : List ReceiptData) (freshId url : String) : List ReceiptData :=
  if receipts.any (fun r => r.url == some url) then
    receipts
  else
    { id := freshId, url := some url, status := .processing, isSynced := false } :: receipts

/-- No two records of the list share the same non-empty `url`
(spec §8, property 1). -/
def urlsUnique (rs : List ReceiptData) : Prop :=
  rs.Pairwise (fun a b => ∀ u : String, u ≠ "" → a.url = some u → b.url ≠ some u)

/-- Running a whole sequence of `addReceipt` calls (each call supplying a
fresh id and a url) from a given starting list. -/
def runAddCalls (start : List ReceiptData) (calls : List (String × String)) :
    List ReceiptData :=
  calls.foldl (fun rs c => addReceipt rs c.1 c.2) start

/-- The guard of the background queue trigger and of `processQueue`'s
selection (`r.status === 'processing' && r.url`, lines 25 and 149). -/
def queueEligible (r : ReceiptData) : Bool :=
  r.status == Status.processing && strTruthy r.url

/-- The part of the service state relevant to the extraction queue: the
canonical receipt list, the `isProcessing` mutual-exclusion flag, and the
ids of receipts whose extraction side effects are currently in flight (the
stretch of `processQueue` between `isProcessing.set(true)` and the
`finally`).  The `active` field is observational bookkeeping for the
serialization property; the source stores it implicitly in the suspended
`processQueue` invocation. -/
structure QueueState where
  receipts : List ReceiptData
  isProcessing : Bool
  active : List String
deriving DecidableEq, Repr

/-- The synchronous prefix of `processQueue` (lines 146-152), up to and
including `isProcessing.set(true)`: bail out if already processing, select
the first eligible record in list order, mark processing and begin its
extraction. -/
def processQueueStart (s : QueueState) : QueueState :=
  if s.isProcessing then s
  else
    match s.receipts.find? queueEligible with
    | none => s
    | some r => { s with isProcessing := true, active := r.id :: s.active }

/-- The reactive queue trigger (constructor effect, lines 24-28): invoke
`processQueue` exactly when some record is `processing` with a truthy url
and no extraction is in progress. -/
def triggerFire (s : QueueState) : QueueState :=
  if s.receipts.any queueEligible && !s.isProcessing then processQueueStart s
  else s

/-- The end of a `processQueue` run: the `finally` clears the flag and the
run's extraction leaves the in-flight set; `rs'` is whatever the run (and
any interleaved save callbacks) wrote to the list. -/
def finishExtraction (s : QueueState) (rs' : List ReceiptData) : QueueState :=
  { receipts := rs', isProcessing := false, active := s.active.tail }

/-- Event-level transitions of the queue: the reactive trigger firing, a
running extraction finishing, and any other operation of the service
(which may rewrite the list but never touches `isProcessing` nor starts an
extraction). -/
inductive QueueStep : QueueState → QueueState → Prop
  | trigger (s : QueueState) : QueueStep s (triggerFire s)
  | finish (s : QueueState) (rs' : List ReceiptData) :
      s.isProcessing = true → QueueStep s (finishExtraction s rs')
  | mutate (s : QueueState) (rs' : List ReceiptData) :
      QueueStep s ⟨rs', s.isProcessing, s.active⟩

/-- The queue state of a fresh service. -/
def initQueue : QueueState := ⟨[], false, []⟩

/-- States reachable from a fresh service by queue events. -/
def Reachable (s : QueueState) : Prop := Relation.ReflTransGen QueueStep initQueue s

/-- The serialization invariant: at most one extraction in flight, and none
at all unless the `isProcessing` flag is set. -/
def QueueInv (s : QueueState) : Prop :=
  s.active.length ≤ 1 ∧ (s.isProcessing = false → s.active = [])

/-- The fields the Gemini extraction returns
(`ParsedReceiptData = Omit<ReceiptData, 'id' | 'url' | 'status' | 'error'>`).
A `none` field models a key absent from the parsed JSON object. -/
structure ParsedReceiptData where
  storeName : Option String := none
  storeCnpj : Option String := none
  storeAddress : Option String := none
  date : Option String := none
  totalAmount : Option Rat := none
  items : Option (List ReceiptItem) := none
  payer : Option String := none
deriving DecidableEq, Repr

/-- The spread `{ ...receiptToProcess, ...parsedData, status: 'completed',
isSynced: false }` (lines 156-161).  A key present in the parsed object
overrides the record's field; an absent key leaves it. -/
def mergeParsed (r : ReceiptData) (p : ParsedReceiptData) : ReceiptData :=
  { r with
    storeName := p.storeName.or r.storeName
    storeCnpj := p.storeCnpj.or r.storeCnpj
    storeAddress := p.storeAddress.or r.storeAddress
    date := p.date.or r.date
    totalAmount := p.totalAmount.or r.totalAmount
    items := p.items.or r.items
    payer := p.payer.or r.payer
    status := Status.completed
    isSynced := false }

/-- One whole run of `processQueue` (lines 146-207) from invocation to the
`finally`, with the extraction step's outcome passed in as `extract`.
Returns the new state together with the receipt a remote save was issued
for (`none` when the bridge is unconfigured or nothing was processed).
The `finally { this.isProcessing.set(false) }` is reflected by both the
success and the failure branch producing `isProcessing := false`. -/
def processQueueRun (cfg : Bool)
    (extract : String → Except String ParsedReceiptData)
    (s : QueueState) : QueueState × Option ReceiptData :=
  if s.isProcessing then (s, none)
  else
    match s.receipts.find? queueEligible with
    | none => (s, none)
    | some r =>
      match extract (r.url.getD "") with
      | .ok parsed =>
          let completedReceipt := mergeParsed r parsed
          ({ s with
              receipts := s.receipts.map fun x =>
                if x.id == r.id then completedReceipt else x,
              isProcessing := false },
           if cfg then some completedReceipt else none)
      | .error msg =>
          let errorReceipt := { r with status := Status.error, error := some msg }
          ({ s with
              receipts := s.receipts.map fun x =>
                if x.id == r.id then errorReceipt else x,
              isProcessing := false },
           if cfg then some errorReceipt else none)

/-- The `saveReceipt(completedReceipt).subscribe` callback of
`processQueue` (lines 172-184): flip `isSynced` on the saved record only
when the response arrives and reports success; a `none` response models a
network failure (the bridge resolves `null`). -/
def applySaveResponse (rs : List ReceiptData) (id : String)
    (response : Option SaveResponse) : List ReceiptData :=
  match response with
  | some resp =>
      if resp.success then
        rs.map fun r => if r.id == id then { r with isSynced := true } else r
      else rs
  | none => rs

/-- The fixed message given to remote records found mid-processing
(line 45). -/
def staleProcessingMsg : String := "O processamento falhou em uma sessão anterior."

/-- The per-record sanitization of `initialLoad`'s remote branch
(lines 43-48): a `processing` record is recast to `error` with the fixed
message; every record is marked synced. -/
def sanitizeRemote (r : ReceiptData) : ReceiptData :=
  if r.status == Status.processing then
    { r with status := Status.error, error := some staleProcessingMsg, isSynced := true }
  else
    { r with isSynced := true }

/-- The receipt list together with the `isLoading` flag, as observed by
`initialLoad`. -/
structure LoadState where
  receipts : List ReceiptData
  isLoading : Bool
deriving DecidableEq, Repr

/-- `initialLoad()` in the remote-configured branch (lines 38-51), observed
once the `getReceipts` subscription has delivered `fetched`: the in-memory
list is replaced by the sanitized remote list and the loading flag is
cleared. -/
def initialLoad (fetched : List ReceiptData) : LoadState :=
  { receipts := fetched.map sanitizeRemote, isLoading := false }

/-- The synchronous part of `retrySync(id)` (lines 209-223): the guard
chain, then marking the record `syncing` and issuing one remote save.
Returns the new list and the receipt the save was issued for (`none` when
the call was a no-op). -/
def retrySyncStart (cfg : Bool) (rs : List ReceiptData) (receiptId : String) :
    List ReceiptData × Option ReceiptData :=
  match rs.find? (fun r => r.id == receiptId) with
  | none => (rs, none)
  | some r =>
      if !(r.status == Status.completed) || r.isSynced || r.syncing then (rs, none)
      else if !cfg then (rs, none)
      else
        (rs.map fun x => if x.id == receiptId then { x with syncing := true } else x,
         some r)

/-- The `retrySync` subscription callbacks (lines 223-234): on a successful
response set `isSynced := true, syncing := false`; on an unsuccessful
response or a network error (`none`) clear `syncing` only. -/
def retrySyncSettle (rs : List ReceiptData) (receiptId : String)
    (response : Option SaveResponse) : List ReceiptData :=
  match response with
  | some resp =>
      if resp.success then
        rs.map fun r =>
          if r.id == receiptId then { r with isSynced := true, syncing := false } else r
      else
        rs.map fun r => if r.id == receiptId then { r with syncing := false } else r
  | none =>
      rs.map fun r => if r.id == receiptId then { r with syncing := false } else r

/-- `updateReceiptUrl(id, newUrl)` (lines 323-331): an unconditional
field replacement on the matching record.  The second component is the
remote save issued by the call: the source issues none. -/
def updateReceiptUrl (rs : List ReceiptData) (receiptId newUrl : String) :
    List ReceiptData × Option ReceiptData :=
  (rs.map fun r => if r.id == receiptId then { r with url := some newUrl } else r,
   none)

/-- `deleteReceipt(id)` (lines 333-352), local effect: a no-op when the id
is absent; otherwise filter the record out and, if the bridge is
configured, issue one remote delete (second component is the id it was
issued for). -/
def deleteReceipt (cfg : Bool) (rs : List ReceiptData) (receiptId : String) :
    List ReceiptData × Option String :=
  match rs.find? (fun r => r.id == receiptId) with
  | none => (rs, none)
  | some _ =>
      (rs.filter fun r => !(r.id == receiptId),
       if cfg then some receiptId else none)

end ReceiptService

namespace GoogleSheetsService

/-- Outcome of one issued JSONP transport call: the typed response, or a
transport failure. -/
inductive NetOutcome (α : Type) where
  | ok (value : α)
  | fail (err : String)
deriving DecidableEq, Repr

/-- The bridge's own state (google-sheets.service.ts): the configured
endpoint and the one-shot connection-error flag. -/
structure BridgeState where
  scriptUrl : Option String := none
  connectionError : Option String := none
deriving DecidableEq, Repr

/-- `isConfigured()` (line 27): `!!this._scriptUrl()`. -/
def isConfigured (b : BridgeState) : Bool := strTruthy b.scriptUrl

/-- The user-facing connection failure message set by `jsonpRequest`'s
`catchError` (line 70). -/
def connectionFailureMsg : String :=
  "Falha na comunicação com o Google Sheets. Verifique se a URL do script está correta, sua conexão com a internet, e se o script foi implantado com acesso para \"Qualquer pessoa\"."

/-- The response of the `migrate` action as typed by the client. -/
structure MigrateResponse where
  success : Bool
  migratedCount : Nat
  message : String
deriving DecidableEq, Repr

/-- `getReceipts()` (lines 77-89): short-circuit to `[]` when not
configured; otherwise one `jsonpRequest` whose failure is mapped by
`catchError` to `[]` (after `jsonpRequest` has recorded the connection
error).  The `Bool` component records whether a request was issued. -/
def getReceipts (b : BridgeState) (net : NetOutcome (List ReceiptData)) :
    BridgeState × List ReceiptData × Bool :=
  if !(isConfigured b) then (b, [], false)
  else
    match net with
    | .ok v => ({ b with connectionError := none }, v, true)
    | .fail _ => ({ b with connectionError := some connectionFailureMsg }, [], true)

/-- `saveReceipt(receipt)` (lines 91-103): short-circuit to `null` when not
configured; a failed call resolves to `null`. -/
def saveReceipt (b : BridgeState) (receipt : ReceiptData)
    (net : NetOutcome SaveResponse) : BridgeState × Option SaveResponse × Bool :=
  if !(isConfigured b) then (b, none, false)
  else
    match net with
    | .ok v => ({ b with connectionError := none }, some v, true)
    | .fail _ => ({ b with connectionError := some connectionFailureMsg }, none, true)

/-- `deleteReceipt(receiptId)` (lines 105-117): same shape as
`saveReceipt`. -/
def deleteReceipt (b : BridgeState) (receiptId : String)
    (net : NetOutcome SaveResponse) : BridgeState × Option SaveResponse × Bool :=
  if !(isConfigured b) then (b, none, false)
  else
    match net with
    | .ok v => ({ b with connectionError := none }, some v, true)
    | .fail _ => ({ b with connectionError := some connectionFailureMsg }, none, true)

/-- `migrateOldData()` (lines 119-131): same shape, with the migrate
response type. -/
def migrateOldData (b : BridgeState)
    (net : NetOutcome MigrateResponse) : BridgeState × Option MigrateResponse × Bool :=
  if !(isConfigured b) then (b, none, false)
  else
    match net with
    | .ok v => ({ b with connectionError := none }, some v, true)
    | .fail _ => ({ b with connectionError := some connectionFailureMsg }, none, true)

end GoogleSheetsService

namespace AppsScript

/-- The cell text written for a `Status` value. -/
def statusStr : Status → String
  | .processing => "processing"
  | .completed => "completed"
  | .error => "error"

/-- One row of the `Recibos` sheet, with the columns of `receiptHeaders`
(Code.gs lines 124-127).  An absent optional field was written as the
empty cell (`''`), modelled by `""`/`none`.  The `items` column physically
holds `JSON.stringify(data.items)` and `handleGet` parses it back; the
JSON round trip on an item array is the identity, so the model stores the
array itself (`none` for the empty cell). -/
structure RowData where
  id : String
  url : String := ""
  status : String := ""
  storeName : String := ""
  storeCnpj : String := ""
  storeAddress : String := ""
  date : String := ""
  totalAmount : Option Rat := none
  items : Option (List ReceiptItem) := none
  error : String := ""
  payer : String := ""
  timestamp : Nat := 0
deriving DecidableEq, Repr

/-- One row of the `Itens` sheet (`itemHeaders`, Code.gs lines 128-131). -/
structure ItemRow where
  item_id : Nat
  receipt_id : String
  name : String
  quantity : Rat
  unit : String
  unitPrice : Rat
  totalPrice : Rat
  category : String
  timestamp : Nat
deriving DecidableEq, Repr

/-- The two data tables of the spreadsheet plus the source of fresh item
ids (`Utilities.getUuid()` is modelled by a counter). -/
structure SheetState where
  receipts : List RowData := []
  items : List ItemRow := []
  nextItemId : Nat := 0
deriving DecidableEq, Repr

/-- The `rowData` built by `handleSaveOrUpdate` (Code.gs lines 234-244): one
cell per receipt header, `''` for absent fields, `JSON.stringify` for the
items array, and a server-assigned timestamp.  The client's transient
`isSynced`/`syncing` flags are not columns and are dropped. -/
def toRowData (data : ReceiptData) (now : Nat) : RowData :=
  { id := data.id
    url := data.url.getD ""
    status := statusStr data.status
    storeName := data.storeName.getD ""
    storeCnpj := data.storeCnpj.getD ""
    storeAddress := data.storeAddress.getD ""
    date := data.date.getD ""
    totalAmount := data.totalAmount
    items := data.items
    error := data.error.getD ""
    payer := data.payer.getD ""
    timestamp := now }

/-- `findRowById` (Code.gs lines 395-405): scan the id column top to
bottom and return the index of the first row whose id cell equals `id`
(`none` models the sentinel `-1`). -/
def findRowById (rows : List RowData) (id : String) : Option Nat :=
  match rows with
  | [] => none
  | r :: rest =>
      if r.id == id then some 0 else (findRowById rest id).map (· + 1)

/-- `deleteItemsByReceiptId` (Code.gs lines 366-384): delete every row of
the `Itens` sheet whose `receipt_id` matches, keeping the rest in order. -/
def deleteItemsByReceiptId (rows : List ItemRow) (receiptId : String) : List ItemRow :=
  rows.filter fun r => !(r.receipt_id == receiptId)

/-- `processAndSaveItems` (Code.gs lines 341-361): delete the old item rows
of the receipt, then append one fresh row per item, in order, each with a
fresh `item_id` and the same write timestamp. -/
def processAndSaveItems (st : SheetState) (receiptId : String)
    (items : List ReceiptItem) (now : Nat) : SheetState :=
  let kept := deleteItemsByReceiptId st.items receiptId
  let rowsToAdd := items.enum.map fun e =>
    { item_id := st.nextItemId + e.1
      receipt_id := receiptId
      name := e.2.name
      quantity := e.2.quantity
      unit := e.2.unit
      unitPrice := e.2.unitPrice
      totalPrice := e.2.totalPrice
      category := e.2.category
      timestamp := now : ItemRow }
  { st with items := kept ++ rowsToAdd, nextItemId := st.nextItemId + items.length }

/-- `handleSaveOrUpdate` (Code.gs lines 221-262): upsert the receipt row by
id (update in place when found, append otherwise), then — when the payload
carries an items array — replace that receipt's item rows wholesale.
Responds `{ success: true, id }`. -/
def handleSaveOrUpdate (st : SheetState) (data : ReceiptData) (now : Nat) :
    SheetState × SaveResponse :=
  let row := toRowData data now
  let receipts :=
    match findRowById st.receipts data.id with
    | some i => st.receipts.set i row
    | none => st.receipts ++ [row]
  let st1 : SheetState := { st with receipts := receipts }
  let st2 :=
    match data.items with
    | some its => processAndSaveItems st1 data.id its now
    | none => st1
  (st2, { success := true, id := data.id })

/-- The projection of an `Itens` row back to the item payload it was
written from (the row minus its server-assigned `item_id`, `receipt_id`
and `timestamp` columns). -/
def itemOfRow (row : ItemRow) : ReceiptItem :=
  { name := row.name
    quantity := row.quantity
    unit := row.unit
    unitPrice := row.unitPrice
    totalPrice := row.totalPrice
    category := row.category }

/-- `handleGet` (Code.gs lines 173-213): return every receipt row, with the
`items` cell parsed back into an array (folded into the `RowData` model,
see `RowData`). -/
def handleGet (st : SheetState) : List RowData :=
  st.receipts

/-- `handleDelete` (Code.gs lines 267-279): delete the first receipt row
with the id when present, delete every item row referencing the id, and
respond `{ success: true, id }` regardless of whether the id existed. -/
def handleDelete (st : SheetState) (id : String) : SheetState × SaveResponse :=
  let receipts :=
    match findRowById st.receipts id with
    | some i => st.receipts.eraseIdx i
    | none => st.receipts
  ({ st with receipts := receipts, items := deleteItemsByReceiptId st.items id },
   { success := true, id := id })

end AppsScript

namespace AnalyticsService

/-- Whitespace as stripped by `String.prototype.trim` (restricted to the
common ASCII whitespace characters). -/
def wsChar (c : Char) : Bool := c == ' ' || c == '\t' || c == '\n' || c == '\r'

/-- `normalize` (analytics.service.ts line 62): `name.trim().toLowerCase()`,
written out over the character list so that it evaluates by reduction. -/
def normalize (name : String) : String :=
  ⟨((name.data.dropWhile wsChar).reverse.dropWhile wsChar).reverse.map Char.toLower⟩

/-- One entry of a product's purchase history (`ProductPurchase`). -/
structure ProductPurchase where
  storeName : String
  unitPrice : Rat
  date : String
  quantity : Rat
  unit : String
deriving DecidableEq, Repr

/-- One product with its purchase history (`ProductPriceInfo`). -/
structure ProductPriceInfo where
  name : String
  category : String
  purchases : List ProductPurchase
deriving DecidableEq, Repr

/-- Boolean order used to model `a.name.localeCompare(b.name)` sorting:
byte-lexicographic string comparison (faithful for ASCII names). -/
def nameLe (a b : ProductPriceInfo) : Bool :=
  !(compare a.name b.name == Ordering.gt)

/-- Boolean order modelling `(a, b) => new Date(b.date).getTime() - new
Date(a.date).getTime()` (newest first); ISO-8601 date strings compare
chronologically as strings. -/
def purchasesLe (a b : ProductPurchase) : Bool :=
  !(compare a.date b.date == Ordering.lt)

/-- The body of `productsAnalytics`'s double `forEach` (lines 144-165):
insert a purchase into the product map keyed by normalized name, creating
the entry with the first-seen original-case name, and updating the
category to the latest one seen. -/
def pushPurchase (key origName category : String) (purchase : ProductPurchase) :
    List (String × ProductPriceInfo) → List (String × ProductPriceInfo)
  | [] => [(key, { name := origName, category := category, purchases := [purchase] })]
  | e :: rest =>
      if e.1 == key then
        (e.1, { e.2 with category := category, purchases := e.2.purchases ++ [purchase] })
          :: rest
      else
        e :: pushPurchase key origName category purchase rest

/-- `productsAnalytics` (lines 141-170): group the items of completed
receipts by normalized name in first-seen order, sort each purchase list
newest-first, and sort the products by name.  Fields the TS `Required`
cast assumes present (`items`, `storeName`, `date`) default to
empty/empty-string when absent, matching the cells an incomplete record
would carry. -/
def productsAnalytics (receipts : List ReceiptData) : List ProductPriceInfo :=
  let completedReceipts := receipts.filter fun r => r.status == Status.completed
  let productMap := completedReceipts.foldl
    (fun m r =>
      (r.items.getD []).foldl
        (fun m item =>
          pushPurchase (normalize item.name) item.name
            (if item.category == "" then "Outros" else item.category)
            { storeName := r.storeName.getD ""
              unitPrice := item.unitPrice
              date := r.date.getD ""
              quantity := item.quantity
              unit := item.unit } m)
        m)
    []
  ((productMap.map fun e => e.2).map fun p =>
      { p with purchases := p.purchases.mergeSort purchasesLe }).mergeSort nameLe

/-- One entry of the simulation result
(`{ storeName; total; foundItems; missingItems }`). -/
structure SimResult where
  storeName : String
  total : Rat
  foundItems : Nat
  missingItems : List String
deriving DecidableEq, Repr

/-- One entry of the `storeSimulation` map: running total and the set of
normalized item names already counted, in insertion order.  (The JS entry
also carries `allItems`, a copy of the same requested-name set for every
store; the model recomputes it where used.) -/
structure StoreSim where
  storeName : String
  total : Rat
  foundItems : List String
deriving DecidableEq, Repr

/-- `String.prototype.split` at the bar character: every occurrence of
`|` separates two (possibly empty) segments, so the result always has
one more segment than the string has bars.  Written by structural
recursion over the character list (with the segment collected so far in
reverse) so that it evaluates by reduction. -/
def splitPipeAux : List Char → List Char → List String
  | [], acc => [⟨acc.reverse⟩]
  | c :: rest, acc =>
      if c == '|' then ⟨acc.reverse⟩ :: splitPipeAux rest []
      else splitPipeAux rest (c :: acc)

/-- `key.split('|')` (analytics.service.ts line 298). -/
def splitPipe (s : String) : List String := splitPipeAux s.data []

/-- A string free of the bar character that `simulateShoppingList` uses
as its `latestPrices` key separator. -/
def pipeFree (s : String) : Prop := '|' ∉ s.data

instance (s : String) : Decidable (pipeFree s) :=
  inferInstanceAs (Decidable ('|' ∉ s.data))

/-- The `latestPrices` insertion (lines 288-294): first writer wins per
string key; the value mirrors the JS `{ storeName, unitPrice }` record. -/
def insertLatestPrice (m : List (String × (String × Rat))) (key : String)
    (value : String × Rat) : List (String × (String × Rat)) :=
  if m.any (fun e => e.1 == key) then m else m ++ [(key, value)]

/-- Building `latestPrices` (lines 284-295): walk the products (in
`productsAnalytics` order), keep only requested names, and record the
first value seen per key in purchase order.  The key is the string
`` `${normalizedName}|${purchase.storeName}` `` (line 289). -/
def buildLatestPrices (analytics : List ProductPriceInfo)
    (normalizedItems : List String) : List (String × (String × Rat)) :=
  analytics.foldl
    (fun m product =>
      if normalizedItems.contains (normalize product.name) then
        product.purchases.foldl
          (fun m purchase =>
            insertLatestPrice m
              (normalize product.name ++ "|" ++ purchase.storeName)
              (purchase.storeName, purchase.unitPrice))
          m
      else m)
    []

/-- The `storeSimulation` update for one `latestPrices` entry
(lines 297-307): create the store's entry on first sight, then add the
price once per item name. -/
def upsertStoreSim (store itemName : String) (price : Rat) :
    List StoreSim → List StoreSim
  | [] => [{ storeName := store, total := price, foundItems := [itemName] }]
  | e :: rest =>
      if e.storeName == store then
        (if e.foundItems.contains itemName then e
         else { e with total := e.total + price, foundItems := e.foundItems ++ [itemName] })
          :: rest
      else e :: upsertStoreSim store itemName price rest

/-- First-occurrence deduplication in order: the iteration order of
`new Set(list)` in JS. -/
def dedupFirst (l : List String) : List String :=
  l.foldl (fun acc x => if acc.contains x then acc else acc ++ [x]) []

/-- The final ranking comparator (lines 325-330): most found items first,
then lowest total. -/
def rankLe (a b : SimResult) : Bool :=
  if a.foundItems == b.foundItems then decide (a.total ≤ b.total)
  else decide (b.foundItems < a.foundItems)

/-- The `storeSimulation` map of `simulateShoppingList` (lines 280-307):
walk `latestPrices` in insertion order, accumulating per store.  Item and
store are read back from the key by
`const [itemName, storeName] = key.split('|')` (line 298), i.e. segments
0 and 1 of the split — the stored `priceInfo.storeName` is never used,
only `priceInfo.unitPrice` is.  Every key contains a bar, so the split
has at least two segments and the JS destructuring never yields
`undefined`; the model's default `""` for a missing segment is
therefore unreachable. -/
def storeSimulation (analytics : List ProductPriceInfo) (items : List String) :
    List StoreSim :=
  (buildLatestPrices analytics (items.map normalize)).foldl
    (fun sims e =>
      let parts := splitPipe e.1
      upsertStoreSim (parts.getD 1 "") (parts.getD 0 "") e.2.2 sims)
    []

/-- One entry of the pre-sort `result` array (lines 309-322): count the
found set, compute the missing requested names (`allItems` minus the found
set, in request first-occurrence order) and map them back to their
first-matching original-case spelling. -/
def toResult (items : List String) (data : StoreSim) : SimResult :=
  { storeName := data.storeName
    total := data.total
    foundItems := data.foundItems.length
    missingItems :=
      ((dedupFirst (items.map normalize)).filter
          fun n => !(data.foundItems.contains n)).map
        fun n => (items.find? fun i => normalize i == n).getD n }

/-- The pre-sort `result` array of `simulateShoppingList`. -/
def simResults (analytics : List ProductPriceInfo) (items : List String) :
    List SimResult :=
  (storeSimulation analytics items).map (toResult items)

/-- `simulateShoppingList(items)` (lines 279-331), taking the
`productsAnalytics()` projection as an argument. -/
def simulateShoppingList (analytics : List ProductPriceInfo) (items : List String) :
    List SimResult :=
  (simResults analytics items).mergeSort rankLe

/-- Specification-side view: the requested item names, normalized and
deduplicated in first-occurrence order (the iteration order of the
`allItems` set). -/
def requestedNames (items : List String) : List String :=
  dedupFirst (items.map normalize)

/-- Specification-side view: the earliest-listed price of normalized item
`n` at `store`, walking the products with that normalized name in order and
their purchase histories in order (first match wins). -/
def firstPriceAt (analytics : List ProductPriceInfo) (n store : String) : Option Rat :=
  (((analytics.filter fun p => normalize p.name == n).flatMap fun p => p.purchases).find?
      fun pu => pu.storeName == store).map
    fun pu => pu.unitPrice

/-- Specification-side view of the `latestPrices` insertion: first writer
wins per `(normalized name, store)` pair, the lossless reading of the
string key.  It coincides with `insertLatestPrice` exactly when the key
components are bar-free. -/
def pairInsert (m : List ((String × String) × Rat)) (key : String × String)
    (price : Rat) : List ((String × String) × Rat) :=
  if m.any (fun e => e.1 == key) then m else m ++ [(key, price)]

/-- Specification-side view of `latestPrices`, keyed by the
`(normalized name, store)` pair instead of the joined string. -/
def pairLatestPrices (analytics : List ProductPriceInfo)
    (normalizedItems : List String) : List ((String × String) × Rat) :=
  analytics.foldl
    (fun m product =>
      if normalizedItems.contains (normalize product.name) then
        product.purchases.foldl
          (fun m purchase =>
            pairInsert m (normalize product.name, purchase.storeName)
              purchase.unitPrice)
          m
      else m)
    []

/-- Specification-side view of the `storeSimulation` fold, reading item
and store losslessly from the pair key. -/
def pairStoreSimulation (analytics : List ProductPriceInfo) (items : List String) :
    List StoreSim :=
  (pairLatestPrices analytics (items.map normalize)).foldl
    (fun sims e => upsertStoreSim e.1.2 e.1.1 e.2 sims) []

/-- The string-keyed `latestPrices` entry that a pair-keyed entry gives
rise to: join the key components with a bar and keep the store name
alongside the price, the way lines 289-291 do. -/
def encodeEntry (e : (String × String) × Rat) : String × (String × Rat) :=
  (e.1.1 ++ "|" ++ e.1.2, (e.1.2, e.2))

/-- The stream of candidate `(key, price)` pairs in the order
`buildLatestPrices` visits them. -/
def priceStream (analytics : List ProductPriceInfo) (normalizedItems : List String) :
    List ((String × String) × Rat) :=
  analytics.flatMap fun p =>
    if normalizedItems.contains (normalize p.name) then
      p.purchases.map fun pu => ((normalize p.name, pu.storeName), pu.unitPrice)
    else []

/-- Folding `pairInsert` over a list of entries. -/
def insertAll (m : List ((String × String) × Rat))
    (entries : List ((String × String) × Rat)) : List ((String × String) × Rat) :=
  entries.foldl (fun m e => pairInsert m e.1 e.2) m

/-- Folding `insertLatestPrice` over a list of string-keyed entries. -/
def strInsertAll (m : List (String × (String × Rat)))
    (entries : List (String × (String × Rat))) : List (String × (String × Rat)) :=
  entries.foldl (fun m e => insertLatestPrice m e.1 e.2) m

/-- The price recorded in an association list for a key. -/
def lookupKey (m : List ((String × String) × Rat)) (k : String × String) : Option Rat :=
  (m.find? fun e => e.1 == k).map fun e => e.2

/-- The simulation entry of one store, when present. -/
def findSim (sims : List StoreSim) (s : String) : Option StoreSim :=
  sims.find? fun t => t.storeName == s

/-- A store entry extended by one found item
(`total += price; foundItems.add(itemName)`). -/
def bumpSim (t : StoreSim) (itemName : String) (price : Rat) : StoreSim :=
  { t with total := t.total + price, foundItems := t.foundItems ++ [itemName] }

/-- A store entry freshly created for its first found item. -/
def newSim (store itemName : String) (price : Rat) : StoreSim :=
  { storeName := store, total := price, foundItems := [itemName] }

/-- The `latestPrices` entries that belong to one store, in order. -/
def rowsFor (s : String) (L : List ((String × String) × Rat)) :
    List ((String × String) × Rat) :=
  L.filter fun e => e.1.2 == s

/-- Extending one store's (possibly absent) accumulator entry with a batch
of price entries, the way the `storeSimulation` fold does. -/
def mergeEntry (s : String) (prev : Option StoreSim)
    (es : List ((String × String) × Rat)) : Option StoreSim :=
  match prev with
  | some t =>
      some { storeName := t.storeName, total := t.total + (es.map fun e => e.2).sum,
             foundItems := t.foundItems ++ es.map fun e => e.1.1 }
  | none =>
      if es.isEmpty then none
      else
        some { storeName := s, total := (es.map fun e => e.2).sum,
               foundItems := es.map fun e => e.1.1 }

/-- The specification-side total for a store: the first price of each
requested item at the store, summed once per requested item. -/
def specTotal (analytics : List ProductPriceInfo) (items : List String) (s : String) :
    Rat :=
  ((requestedNames items).filterMap fun n => firstPriceAt analytics n s).sum

/-- The specification-side number of requested items priced at a store. -/
def specFound (analytics : List ProductPriceInfo) (items : List String) (s : String) :
    Nat :=
  ((requestedNames items).filter fun n => (firstPriceAt analytics n s).isSome).length

/-- The specification-side missing list for a store: the requested items
with no price there, in request order, in their first-matching
original-case spelling. -/
def specMissing (analytics : List ProductPriceInfo) (items : List String) (s : String) :
    List String :=
  ((requestedNames items).filter fun n => (firstPriceAt analytics n s).isNone).map
    fun n => (items.find? fun i => normalize i == n).getD n

/-- The purchase history of the spec's shopping-list scenario: one
completed receipt from store `"A"` with a single item `"Leite"` at unit
price 5. -/
def scenarioReceipt : ReceiptData :=
  { id := "r1", status := .completed, storeName := some "A",
    date := some "2024-01-01",
    items := some [{ name := "Leite", quantity := 1, unit := "UN", unitPrice := 5,
                     totalPrice := 5, category := "Laticínios" }] }

/-- A purchase history whose store name contains the bar used as the
`latestPrices` key separator: one product `"Leite"` bought at the store
`"A|B"` for 5. -/
def pipeScenario : List ProductPriceInfo :=
  [{ name := "Leite", category := "Laticínios",
     purchases := [{ storeName := "A|B", unitPrice := 5, date := "2024-01-01",
                     quantity := 1, unit := "UN" }] }]

end AnalyticsService

/-! ## Theorems -/

section C1Theorems

open ReceiptService

theorem addReceipt_of_mem {rs : List ReceiptData} {u : String}
    (h : ∃ r ∈ rs, r.url = some u) (freshId : String) :
    addReceipt rs freshId u = rs := by
  obtain ⟨r, hr, hu⟩ := h
  unfold addReceipt
  rw [if_pos]
  rw [List.any_eq_true]
  exact ⟨r, hr, by simp [hu]⟩

theorem addReceipt_preserves_urlsUnique {rs : List ReceiptData}
    (h : urlsUnique rs) (freshId u : String) :
    urlsUnique (addReceipt rs freshId u) := by
  unfold addReceipt
  by_cases hdup : rs.any (fun r => r.url == some u) = true
  · rw [if_pos hdup]; exact h
  · rw [if_neg hdup]
    refine List.Pairwise.cons ?_ h
    intro b hb v _ hv
    simp only [Option.some.injEq] at hv
    subst hv
    intro hurl
    exact hdup (List.any_eq_true.mpr ⟨b, hb, by simp [hurl]⟩)

theorem runAddCalls_urlsUnique {start : List ReceiptData}
    (h : urlsUnique start) (calls : List (String × String)) :
    urlsUnique (runAddCalls start calls) := by
  induction calls generalizing start with
  | nil => exact h
  | cons c rest ih => exact ih (addReceipt_preserves_urlsUnique h c.1 c.2)

/-- C1: URL uniqueness at insertion.  Every sequence of `addReceipt` calls
starting from the empty list keeps the non-empty urls pairwise distinct;
`addReceipt` preserves the uniqueness invariant from any state satisfying
it; a call whose url is already carried by some record leaves the list
unchanged; and adding `"http://x/1"` twice leaves the list at length 1. -/
theorem C1_addReceipt_url_uniqueness :
    (∀ calls : List (String × String), urlsUnique (runAddCalls [] calls)) ∧
    (∀ (rs : List ReceiptData) (freshId u : String),
        (∃ r ∈ rs, r.url = some u) → addReceipt rs freshId u = rs) ∧
    (∀ (rs : List ReceiptData) (freshId u : String),
        urlsUnique rs → urlsUnique (addReceipt rs freshId u)) ∧
    (addReceipt (addReceipt [] "id1" "http://x/1") "id2" "http://x/1").length = 1 := by
  refine ⟨fun calls => runAddCalls_urlsUnique (by simp [urlsUnique]) calls,
    fun rs freshId u h => addReceipt_of_mem h freshId,
    fun rs freshId u h => addReceipt_preserves_urlsUnique h freshId u,
    ?_⟩
  decide

/-- Witness for C1 at a concrete input: a duplicate `addReceipt` is a
no-op, and uniqueness is preserved when a distinct url is added. -/
theorem C1_witness :
    addReceipt [{ id := "id1", url := some "http://x/1", status := .processing }] "id2"
        "http://x/1" =
      [{ id := "id1", url := some "http://x/1", status := .processing }] ∧
    urlsUnique (addReceipt [{ id := "id1", url := some "http://x/1", status := .processing }]
      "id3" "http://y/2") :=
  ⟨C1_addReceipt_url_uniqueness.2.1 _ "id2" _ ⟨_, List.mem_singleton_self _, rfl⟩,
   C1_addReceipt_url_uniqueness.2.2.1 _ "id3" _ (by simp [urlsUnique])⟩

end C1Theorems

section C2Theorems

open ReceiptService

theorem queueInv_init : QueueInv initQueue := by
  constructor <;> simp [initQueue]

theorem queueInv_step {s t : QueueState} (hs : QueueInv s) (h : QueueStep s t) :
    QueueInv t := by
  obtain ⟨h1, h2⟩ := hs
  cases h with
  | trigger =>
      unfold triggerFire processQueueStart
      by_cases hc : (s.receipts.any queueEligible && !s.isProcessing) = true
      · rw [if_pos hc]
        have hp : s.isProcessing = false := by
          rcases Bool.and_eq_true .. |>.mp hc with ⟨-, hnp⟩
          simpa using hnp
        rw [if_neg (by simp [hp])]
        match hfind : s.receipts.find? queueEligible with
        | none => exact ⟨h1, h2⟩
        | some r =>
            refine ⟨?_, by simp⟩
            simp [h2 hp]
      · rw [if_neg hc]; exact ⟨h1, h2⟩
  | finish rs' hp =>
      refine ⟨?_, fun _ => ?_⟩
      · unfold finishExtraction
        calc s.active.tail.length ≤ s.active.length := by
              cases s.active <;> simp
          _ ≤ 1 := h1
      · unfold finishExtraction
        match hA : s.active with
        | [] => simp
        | [a] => simp
        | a :: b :: l => rw [hA] at h1; simp at h1
  | mutate rs' => exact ⟨h1, h2⟩

theorem reachable_queueInv {s : QueueState} (h : Reachable s) : QueueInv s := by
  unfold Reachable at h
  induction h with
  | refl => exact queueInv_init
  | tail _ hstep ih => exact queueInv_step ih hstep

theorem find?_first_eligible {l₁ l₂ : List ReceiptData} {r : ReceiptData}
    (h₁ : ∀ x ∈ l₁, queueEligible x = false) (hr : queueEligible r = true) :
    (l₁ ++ r :: l₂).find? queueEligible = some r := by
  induction l₁ with
  | nil => simp [List.find?_cons_of_pos _ hr]
  | cons a l ih =>
      have ha : queueEligible a = false := h₁ a (by simp)
      rw [List.cons_append, List.find?_cons_of_neg _ (by simp [ha])]
      exact ih fun x hx => h₁ x (List.mem_cons_of_mem a hx)

/-- C2: serialized extraction.  Every state reachable by queue events has
at most one extraction in flight; while `isProcessing` is set both the
trigger and `processQueue` (in each of its phase models) are no-ops; the
trigger is also a no-op when no record is `processing` with a truthy url;
and when the queue does start, it starts exactly the first eligible record
in list order. -/
theorem C2_serialized_extraction :
    (∀ s : QueueState, Reachable s → s.active.length ≤ 1) ∧
    (∀ s : QueueState, s.isProcessing = true →
        processQueueStart s = s ∧ triggerFire s = s ∧
        (∀ (cfg : Bool) (extract : String → Except String ParsedReceiptData),
          processQueueRun cfg extract s = (s, none))) ∧
    (∀ s : QueueState, s.receipts.any queueEligible = false → triggerFire s = s) ∧
    (∀ (s : QueueState) (l₁ l₂ : List ReceiptData) (r : ReceiptData),
        s.isProcessing = false → s.receipts = l₁ ++ r :: l₂ →
        (∀ x ∈ l₁, queueEligible x = false) → queueEligible r = true →
        processQueueStart s = ⟨s.receipts, true, r.id :: s.active⟩) := by
  refine ⟨fun s h => (reachable_queueInv h).1, fun s hp => ⟨?_, ?_, fun cfg extract => ?_⟩,
    fun s hno => ?_, fun s l₁ l₂ r hp hrec hall hr => ?_⟩
  · simp [processQueueStart, hp]
  · simp [triggerFire, hp]
  · simp [processQueueRun, hp]
  · simp [triggerFire, hno]
  · have : s.receipts.find? queueEligible = some r := by
      rw [hrec]; exact find?_first_eligible hall hr
    simp [processQueueStart, hp, this]

/-- Witness for C2 at concrete states: the invariant at the initial state,
the no-op of a busy queue, the no-op of an empty queue, and the selection
of the first eligible record. -/
theorem C2_witness :
    initQueue.active.length ≤ 1 ∧
    processQueueStart ⟨[], true, ["id1"]⟩ = ⟨[], true, ["id1"]⟩ ∧
    triggerFire ⟨[], false, []⟩ = ⟨[], false, []⟩ ∧
    processQueueStart
        ⟨[{ id := "id1", url := some "http://x/1", status := .processing }], false, []⟩ =
      ⟨[{ id := "id1", url := some "http://x/1", status := .processing }], true, ["id1"]⟩ :=
  ⟨C2_serialized_extraction.1 initQueue Relation.ReflTransGen.refl,
   (C2_serialized_extraction.2.1 _ rfl).1,
   C2_serialized_extraction.2.2.1 _ rfl,
   C2_serialized_extraction.2.2.2
     ⟨[{ id := "id1", url := some "http://x/1", status := .processing }], false, []⟩ [] []
     { id := "id1", url := some "http://x/1", status := .processing }
     rfl rfl (by simp) (by decide)⟩

end C2Theorems

section C3Theorems

open ReceiptService

/-- C3: extraction step postcondition.  On success the selected record is
replaced by the merge of the extracted fields, `completed` and unsynced,
and a save is issued exactly when the bridge is configured; `isSynced`
flips to true only when a save response confirms success; on failure the
record turns `error` carrying the failure message; in every case the
`isProcessing` flag ends cleared; and the concrete add-then-complete
scenario produces `status=completed, storeName="Loja A",
totalAmount=10.5`. -/
theorem C3_extraction_postcondition :
    (∀ (cfg : Bool) (extract : String → Except String ParsedReceiptData)
        (s : QueueState) (r : ReceiptData) (p : ParsedReceiptData),
        s.isProcessing = false →
        s.receipts.find? queueEligible = some r →
        extract (r.url.getD "") = .ok p →
        (processQueueRun cfg extract s).1.receipts =
            s.receipts.map (fun x => if x.id == r.id then mergeParsed r p else x) ∧
          (mergeParsed r p).status = Status.completed ∧
          (mergeParsed r p).isSynced = false ∧
          (processQueueRun cfg extract s).1.isProcessing = false ∧
          (processQueueRun cfg extract s).2 =
            (if cfg then some (mergeParsed r p) else none)) ∧
    (∀ (rs : List ReceiptData) (id : String), applySaveResponse rs id none = rs) ∧
    (∀ (rs : List ReceiptData) (id : String) (resp : SaveResponse),
        resp.success = false → applySaveResponse rs id (some resp) = rs) ∧
    (∀ (rs : List ReceiptData) (id : String) (resp : SaveResponse),
        resp.success = true →
        applySaveResponse rs id (some resp) =
          rs.map fun r => if r.id == id then { r with isSynced := true } else r) ∧
    (∀ (cfg : Bool) (extract : String → Except String ParsedReceiptData)
        (s : QueueState) (r : ReceiptData) (msg : String),
        s.isProcessing = false →
        s.receipts.find? queueEligible = some r →
        extract (r.url.getD "") = .error msg →
        (processQueueRun cfg extract s).1.receipts =
            s.receipts.map (fun x =>
              if x.id == r.id then { r with status := Status.error, error := some msg }
              else x) ∧
          (processQueueRun cfg extract s).1.isProcessing = false ∧
          (processQueueRun cfg extract s).2 =
            (if cfg then some { r with status := Status.error, error := some msg }
             else none)) ∧
    ((addReceipt [] "id1" "http://x/1").length = 1 ∧
      (∀ r ∈ addReceipt [] "id1" "http://x/1", r.status = Status.processing) ∧
      (processQueueRun false
            (fun _ => .ok { storeName := some "Loja A", totalAmount := some 10.5,
                            items := some [] })
            ⟨addReceipt [] "id1" "http://x/1", false, []⟩).1.receipts.map
          (fun r => (r.status, r.storeName, r.totalAmount)) =
        [(Status.completed, some "Loja A", some (10.5 : Rat))]) := by
  refine ⟨fun cfg extract s r p h1 h2 h3 => ?_, fun rs id => rfl,
    fun rs id resp hf => ?_, fun rs id resp ht => ?_,
    fun cfg extract s r msg h1 h2 h3 => ?_, rfl, by decide, rfl⟩
  · refine ⟨?_, rfl, rfl, ?_, ?_⟩ <;> simp [processQueueRun, h1, h2, h3]
  · simp [applySaveResponse, hf]
  · simp [applySaveResponse, ht]
  · refine ⟨?_, ?_, ?_⟩ <;> simp [processQueueRun, h1, h2, h3]

/-- Witness for C3 at a concrete input: one success run, one failure run,
and the three save-response shapes, all on a one-record queue. -/
theorem C3_witness :
    (processQueueRun true
          (fun _ => .ok { storeName := some "Loja A", totalAmount := some 10.5,
                          items := some [] })
          ⟨[{ id := "id1", url := some "http://x/1", status := .processing }], false,
            []⟩).1.isProcessing = false ∧
    (processQueueRun true (fun _ => .error "falha")
          ⟨[{ id := "id1", url := some "http://x/1", status := .processing }], false,
            []⟩).1.isProcessing = false ∧
    applySaveResponse [] "id1" none = [] ∧
    applySaveResponse [] "id1" (some ⟨false, "id1"⟩) = [] ∧
    applySaveResponse [] "id1" (some ⟨true, "id1"⟩) = [] :=
  ⟨(C3_extraction_postcondition.1 true _ _
      { id := "id1", url := some "http://x/1", status := .processing }
      { storeName := some "Loja A", totalAmount := some 10.5, items := some [] }
      rfl (by decide) rfl).2.2.2.1,
   (C3_extraction_postcondition.2.2.2.2.1 true _ _
      { id := "id1", url := some "http://x/1", status := .processing }
      "falha" rfl (by decide) rfl).2.1,
   C3_extraction_postcondition.2.1 [] "id1",
   C3_extraction_postcondition.2.2.1 [] "id1" ⟨false, "id1"⟩ rfl,
   by rw [C3_extraction_postcondition.2.2.2.1 [] "id1" ⟨true, "id1"⟩ rfl]; rfl⟩

end C3Theorems

section C4Theorems

open ReceiptService

theorem sanitizeRemote_clean (r : ReceiptData) :
    (sanitizeRemote r).status ≠ Status.processing ∧ (sanitizeRemote r).isSynced = true := by
  unfold sanitizeRemote
  by_cases h : (r.status == Status.processing) = true
  · rw [if_pos h]; exact ⟨by simp, rfl⟩
  · rw [if_neg h]
    exact ⟨by simpa using h, rfl⟩

/-- C4: sanitization on initial load.  The remote branch of `initialLoad`
replaces the list with the sanitized fetch: a `processing` record is
recast to `error` with the fixed message, every other record keeps its
status, every record becomes synced, the result exposes no `processing`
record, and the loading flag ends cleared. -/
theorem C4_initial_load_sanitization :
    (∀ fetched : List ReceiptData,
        (initialLoad fetched).receipts = fetched.map sanitizeRemote ∧
        (initialLoad fetched).isLoading = false ∧
        ∀ r ∈ (initialLoad fetched).receipts,
          r.status ≠ Status.processing ∧ r.isSynced = true) ∧
    (∀ r : ReceiptData, r.status = Status.processing →
        sanitizeRemote r =
          { r with status := Status.error, error := some staleProcessingMsg,
                   isSynced := true }) ∧
    (∀ r : ReceiptData, r.status ≠ Status.processing →
        sanitizeRemote r = { r with isSynced := true }) := by
  refine ⟨fun fetched => ⟨rfl, rfl, fun r hr => ?_⟩, fun r hp => ?_, fun r hnp => ?_⟩
  · obtain ⟨x, -, rfl⟩ := List.mem_map.mp hr
    exact sanitizeRemote_clean x
  · simp [sanitizeRemote, hp]
  · rw [sanitizeRemote, if_neg (by simpa using hnp)]

/-- Witness for C4: a two-record remote list, one `processing` and one
`completed`, is sanitized and the flags end as stated. -/
theorem C4_witness :
    (initialLoad [{ id := "a", status := .processing }, { id := "b", status := .completed }]).isLoading = false ∧
    (∀ r ∈ (initialLoad [{ id := "a", status := .processing },
          { id := "b", status := .completed }]).receipts,
        r.status ≠ Status.processing ∧ r.isSynced = true) ∧
    sanitizeRemote { id := "a", status := .processing } =
      { id := "a", status := .error, error := some staleProcessingMsg, isSynced := true } ∧
    sanitizeRemote { id := "b", status := .completed } =
      { id := "b", status := .completed, isSynced := true } :=
  ⟨(C4_initial_load_sanitization.1 _).2.1,
   (C4_initial_load_sanitization.1 _).2.2,
   C4_initial_load_sanitization.2.1 _ rfl,
   C4_initial_load_sanitization.2.2 _ (by decide)⟩

end C4Theorems

section C5Theorems

open ReceiptService

/-- C5 counterexample: a record that satisfies every qualification the
claim lists (present, `completed`, unsynced, not mid-sync), on a service
whose remote bridge is **not** configured.  The claim then demands
`syncing := true` and an issued save; the code is a no-op: the list is
returned unchanged (so no record has `syncing = true`) and no save is
issued. -/
theorem C5_counterexample :
    ([({ id := "r1", status := .completed } : ReceiptData)].find?
        (fun r => r.id == "r1") = some { id := "r1", status := .completed }) ∧
    ({ id := "r1", status := .completed } : ReceiptData).status = Status.completed ∧
    ({ id := "r1", status := .completed } : ReceiptData).isSynced = false ∧
    ({ id := "r1", status := .completed } : ReceiptData).syncing = false ∧
    retrySyncStart false [{ id := "r1", status := .completed }] "r1" =
      ([{ id := "r1", status := .completed }], none) := by
  refine ⟨by decide, rfl, rfl, rfl, rfl⟩

/-- C5 (amended): `retrySync(id)` is a no-op unless the remote bridge is
configured **and** the target record exists with status `completed`,
`isSynced = false` and `syncing = false`; when all of these hold it marks
the record `syncing` and issues one remote save; once that save settles,
a confirmed success yields `isSynced = true, syncing = false`, while an
unsuccessful response or a network error clears `syncing` and leaves
`isSynced` untouched, so a later retry remains possible. -/
theorem C5_retrySync_amended :
    (∀ (cfg : Bool) (rs : List ReceiptData) (id : String),
        rs.find? (fun r => r.id == id) = none → retrySyncStart cfg rs id = (rs, none)) ∧
    (∀ (cfg : Bool) (rs : List ReceiptData) (id : String) (r : ReceiptData),
        rs.find? (fun r => r.id == id) = some r →
        (!(r.status == Status.completed) || r.isSynced || r.syncing) = true →
        retrySyncStart cfg rs id = (rs, none)) ∧
    (∀ (rs : List ReceiptData) (id : String),
        retrySyncStart false rs id = (rs, none)) ∧
    (∀ (rs : List ReceiptData) (id : String) (r : ReceiptData),
        rs.find? (fun r => r.id == id) = some r →
        r.status = Status.completed → r.isSynced = false → r.syncing = false →
        retrySyncStart true rs id =
          (rs.map fun x => if x.id == id then { x with syncing := true } else x,
           some r)) ∧
    (∀ (rs : List ReceiptData) (id : String) (resp : SaveResponse),
        resp.success = true →
        retrySyncSettle rs id (some resp) =
          rs.map fun r =>
            if r.id == id then { r with isSynced := true, syncing := false } else r) ∧
    (∀ (rs : List ReceiptData) (id : String) (resp : SaveResponse),
        resp.success = false →
        retrySyncSettle rs id (some resp) =
          rs.map fun r => if r.id == id then { r with syncing := false } else r) ∧
    (∀ (rs : List ReceiptData) (id : String),
        retrySyncSettle rs id none =
          rs.map fun r => if r.id == id then { r with syncing := false } else r) ∧
    (∀ (rs : List ReceiptData) (id : String),
        ((retrySyncSettle rs id none).map fun r => r.isSynced) =
          rs.map fun r => r.isSynced) ∧
    (∀ (rs : List ReceiptData) (id : String) (resp : SaveResponse),
        resp.success = false →
        ((retrySyncSettle rs id (some resp)).map fun r => r.isSynced) =
          rs.map fun r => r.isSynced) := by
  refine ⟨fun cfg rs id h => ?_, fun cfg rs id r hf hg => ?_, fun rs id => ?_,
    fun rs id r hf h1 h2 h3 => ?_, fun rs id resp h => ?_, fun rs id resp h => ?_,
    fun rs id => rfl, fun rs id => ?_, fun rs id resp h => ?_⟩
  · unfold retrySyncStart
    rw [h]
  · unfold retrySyncStart
    rw [hf]
    simp [hg]
  · unfold retrySyncStart
    split
    · rfl
    · split
      · rfl
      · simp
  · unfold retrySyncStart
    rw [hf]
    simp [h1, h2, h3]
  · simp [retrySyncSettle, h]
  · simp [retrySyncSettle, h]
  · simp only [retrySyncSettle, List.map_map]
    refine List.map_congr_left fun a _ => ?_
    simp only [Function.comp_apply]
    split <;> rfl
  · simp only [retrySyncSettle, h, Bool.false_eq_true, if_false, List.map_map]
    refine List.map_congr_left fun a _ => ?_
    simp only [Function.comp_apply]
    split <;> rfl

/-- Witness for C5 (amended) at concrete inputs: a qualifying record on a
configured bridge starts a sync; the settle callbacks behave as stated. -/
theorem C5_witness :
    retrySyncStart true [{ id := "r1", status := .completed }] "r1" =
      ([{ id := "r1", status := .completed, syncing := true }],
       some { id := "r1", status := .completed }) ∧
    retrySyncSettle [{ id := "r1", status := .completed, syncing := true }] "r1"
        (some ⟨true, "r1"⟩) =
      [{ id := "r1", status := .completed, isSynced := true, syncing := false }] ∧
    retrySyncSettle [{ id := "r1", status := .completed, syncing := true }] "r1" none =
      [{ id := "r1", status := .completed, syncing := false }] ∧
    retrySyncStart false [{ id := "r1", status := .completed }] "r1" =
      ([{ id := "r1", status := .completed }], none) := by
  refine ⟨?_, ?_, ?_, C5_retrySync_amended.2.2.1 _ _⟩
  · rw [C5_retrySync_amended.2.2.2.1 _ "r1" { id := "r1", status := .completed }
      (by decide) rfl rfl rfl]
    decide
  · rw [C5_retrySync_amended.2.2.2.2.1 _ "r1" ⟨true, "r1"⟩ rfl]
    decide
  · rw [C5_retrySync_amended.2.2.2.2.2.2.1 _ "r1"]
    decide

end C5Theorems

section C6Theorems

open GoogleSheetsService

/-- C6: remote bridge total fallback.  Each of the four bridge operations
is total: unconfigured, it short-circuits to its fallback (`[]` for
`getReceipts`, `null` for the others) without issuing a request; a failed
issued call resolves to the same fallback while recording the
connection-error flag; and in every case the resolved value is either the
fallback or the typed success value — never a raised error. -/
theorem C6_bridge_total_fallback :
    (∀ (b : BridgeState) (net : NetOutcome (List ReceiptData)),
        isConfigured b = false → getReceipts b net = (b, [], false)) ∧
    (∀ (b : BridgeState) (receipt : ReceiptData) (net : NetOutcome SaveResponse),
        isConfigured b = false → saveReceipt b receipt net = (b, none, false)) ∧
    (∀ (b : BridgeState) (receiptId : String) (net : NetOutcome SaveResponse),
        isConfigured b = false → deleteReceipt b receiptId net = (b, none, false)) ∧
    (∀ (b : BridgeState) (net : NetOutcome MigrateResponse),
        isConfigured b = false → migrateOldData b net = (b, none, false)) ∧
    (∀ (b : BridgeState) (err : String), isConfigured b = true →
        getReceipts b (.fail err) =
          ({ b with connectionError := some connectionFailureMsg }, [], true)) ∧
    (∀ (b : BridgeState) (receipt : ReceiptData) (err : String), isConfigured b = true →
        saveReceipt b receipt (.fail err) =
          ({ b with connectionError := some connectionFailureMsg }, none, true)) ∧
    (∀ (b : BridgeState) (receiptId err : String), isConfigured b = true →
        deleteReceipt b receiptId (.fail err) =
          ({ b with connectionError := some connectionFailureMsg }, none, true)) ∧
    (∀ (b : BridgeState) (err : String), isConfigured b = true →
        migrateOldData b (.fail err) =
          ({ b with connectionError := some connectionFailureMsg }, none, true)) ∧
    (∀ (b : BridgeState) (net : NetOutcome (List ReceiptData)),
        (getReceipts b net).2.1 = [] ∨
          ∃ v, net = .ok v ∧ (getReceipts b net).2.1 = v) ∧
    (∀ (b : BridgeState) (receipt : ReceiptData) (net : NetOutcome SaveResponse),
        (saveReceipt b receipt net).2.1 = none ∨
          ∃ v, net = .ok v ∧ (saveReceipt b receipt net).2.1 = some v) ∧
    (∀ (b : BridgeState) (receiptId : String) (net : NetOutcome SaveResponse),
        (deleteReceipt b receiptId net).2.1 = none ∨
          ∃ v, net = .ok v ∧ (deleteReceipt b receiptId net).2.1 = some v) ∧
    (∀ (b : BridgeState) (net : NetOutcome MigrateResponse),
        (migrateOldData b net).2.1 = none ∨
          ∃ v, net = .ok v ∧ (migrateOldData b net).2.1 = some v) := by
  refine ⟨fun b net h => by simp [getReceipts, h],
    fun b receipt net h => by simp [saveReceipt, h],
    fun b receiptId net h => by simp [deleteReceipt, h],
    fun b net h => by simp [migrateOldData, h],
    fun b err h => by simp [getReceipts, h],
    fun b receipt err h => by simp [saveReceipt, h],
    fun b receiptId err h => by simp [deleteReceipt, h],
    fun b err h => by simp [migrateOldData, h],
    fun b net => ?_, fun b receipt net => ?_, fun b receiptId net => ?_, fun b net => ?_⟩
  · by_cases h : isConfigured b = true
    · cases net with
      | ok v => exact Or.inr ⟨v, rfl, by simp [getReceipts, h]⟩
      | fail e => exact Or.inl (by simp [getReceipts, h])
    · exact Or.inl (by simp [getReceipts, h])
  · by_cases h : isConfigured b = true
    · cases net with
      | ok v => exact Or.inr ⟨v, rfl, by simp [saveReceipt, h]⟩
      | fail e => exact Or.inl (by simp [saveReceipt, h])
    · exact Or.inl (by simp [saveReceipt, h])
  · by_cases h : isConfigured b = true
    · cases net with
      | ok v => exact Or.inr ⟨v, rfl, by simp [deleteReceipt, h]⟩
      | fail e => exact Or.inl (by simp [deleteReceipt, h])
    · exact Or.inl (by simp [deleteReceipt, h])
  · by_cases h : isConfigured b = true
    · cases net with
      | ok v => exact Or.inr ⟨v, rfl, by simp [migrateOldData, h]⟩
      | fail e => exact Or.inl (by simp [migrateOldData, h])
    · exact Or.inl (by simp [migrateOldData, h])

/-- Witness for C6 on concrete bridge states: the unconfigured bridge
falls back without issuing a call, and a configured bridge maps a failed
call to its fallback. -/
theorem C6_witness :
    getReceipts { scriptUrl := none } (.fail "timeout") = ({ scriptUrl := none }, [], false) ∧
    saveReceipt { scriptUrl := none } { id := "r1", status := .completed }
        (.fail "timeout") = ({ scriptUrl := none }, none, false) ∧
    deleteReceipt { scriptUrl := none } "r1" (.fail "timeout") =
      ({ scriptUrl := none }, none, false) ∧
    migrateOldData { scriptUrl := none } (.fail "timeout") =
      ({ scriptUrl := none }, none, false) ∧
    getReceipts { scriptUrl := some "https://script.google.com/macros/s/x" }
        (.fail "timeout") =
      ({ scriptUrl := some "https://script.google.com/macros/s/x",
         connectionError := some connectionFailureMsg }, [], true) :=
  ⟨C6_bridge_total_fallback.1 _ _ rfl,
   C6_bridge_total_fallback.2.1 _ _ _ rfl,
   C6_bridge_total_fallback.2.2.1 _ _ _ rfl,
   C6_bridge_total_fallback.2.2.2.1 _ _ rfl,
   C6_bridge_total_fallback.2.2.2.2.1 _ _ (by decide)⟩

end C6Theorems

section C8Theorems

open AppsScript

theorem find?_id_filter_ne (rs : List ReceiptData) (id : String) :
    (rs.filter fun r => !(r.id == id)).find? (fun r => r.id == id) = none := by
  rw [List.find?_eq_none]
  intro x hx
  have := List.of_mem_filter hx
  simpa using this

/-- C8: idempotent delete.  Locally, deleting an absent id leaves the list
unchanged and issues no remote call, and a second delete of the same id is
always a no-op; remotely, `handleDelete` responds success for every id
(present or not), leaves the receipts table unchanged for an absent id,
and leaves no item row referencing the id — so deleting the same id twice
never raises. -/
theorem C8_idempotent_delete :
    (∀ (cfg : Bool) (rs : List ReceiptData) (id : String),
        rs.find? (fun r => r.id == id) = none →
        ReceiptService.deleteReceipt cfg rs id = (rs, none)) ∧
    (∀ (cfg : Bool) (rs : List ReceiptData) (id : String),
        ReceiptService.deleteReceipt cfg (ReceiptService.deleteReceipt cfg rs id).1 id =
          ((ReceiptService.deleteReceipt cfg rs id).1, none)) ∧
    (∀ (st : SheetState) (id : String),
        (handleDelete st id).2 = { success := true, id := id }) ∧
    (∀ (st : SheetState) (id : String),
        findRowById st.receipts id = none → (handleDelete st id).1.receipts = st.receipts) ∧
    (∀ (st : SheetState) (id : String),
        ∀ row ∈ (handleDelete st id).1.items, row.receipt_id ≠ id) ∧
    (∀ (st : SheetState) (id : String),
        (handleDelete (handleDelete st id).1 id).2.success = true) := by
  have hnone : ∀ (cfg : Bool) (rs : List ReceiptData) (id : String),
      rs.find? (fun r => r.id == id) = none →
      ReceiptService.deleteReceipt cfg rs id = (rs, none) := by
    intro cfg rs id h
    unfold ReceiptService.deleteReceipt
    rw [h]
  refine ⟨hnone, fun cfg rs id => ?_, fun st id => rfl, fun st id h => ?_,
    fun st id row hrow => ?_, fun st id => rfl⟩
  · match hf : rs.find? (fun r => r.id == id) with
    | none =>
        rw [hnone cfg rs id hf]
        exact hnone cfg rs id hf
    | some r =>
        have h1 : ReceiptService.deleteReceipt cfg rs id =
            (rs.filter fun r => !(r.id == id),
             if cfg then some id else none) := by
          unfold ReceiptService.deleteReceipt
          rw [hf]
        rw [h1]
        exact hnone cfg _ id (find?_id_filter_ne rs id)
  · unfold handleDelete
    rw [h]
  · have : row ∈ deleteItemsByReceiptId st.items id := hrow
    have := List.of_mem_filter this
    simpa using this

/-- Witness for C8 at concrete inputs: deleting an id absent from a
one-record list is a no-op with no remote call, and a remote delete of a
nonexistent id succeeds while leaving the receipts table unchanged. -/
theorem C8_witness :
    ReceiptService.deleteReceipt true [{ id := "r1", status := .completed }] "zzz" =
      ([{ id := "r1", status := .completed }], none) ∧
    (handleDelete { receipts := [], items := [⟨0, "zzz", "Leite", 1, "UN", 5, 5, "Alimentos", 0⟩] } "zzz").2 =
      { success := true, id := "zzz" } ∧
    (handleDelete { receipts := [], items := [⟨0, "zzz", "Leite", 1, "UN", 5, 5, "Alimentos", 0⟩] } "zzz").1.receipts = [] :=
  ⟨C8_idempotent_delete.1 true _ "zzz" (by decide),
   C8_idempotent_delete.2.2.1 _ "zzz",
   C8_idempotent_delete.2.2.2.1 _ "zzz" rfl⟩

end C8Theorems

section C7Theorems

open AppsScript

theorem upsert_find? (rows : List RowData) (row : RowData) (id : String)
    (hrow : row.id = id) :
    (match findRowById rows id with
      | some i => rows.set i row
      | none => rows ++ [row]).find? (fun r => r.id == id) = some row := by
  induction rows with
  | nil =>
      show ([row].find? fun r => r.id == id) = some row
      rw [List.find?_cons_of_pos _ (by simp [hrow])]
  | cons a l ih =>
      by_cases hpa : (a.id == id) = true
      · rw [findRowById, if_pos hpa]
        show ((row :: l).find? fun r => r.id == id) = some row
        rw [List.find?_cons_of_pos _ (by simp [hrow])]
      · rw [findRowById, if_neg hpa]
        cases hf : findRowById l id with
        | some j =>
            show ((a :: l).set (j + 1) row).find? (fun r => r.id == id) = some row
            rw [List.set_cons_succ,
              List.find?_cons_of_neg (p := fun r : RowData => r.id == id) _ hpa]
            rw [hf] at ih
            exact ih
        | none =>
            show ((a :: l) ++ [row]).find? (fun r => r.id == id) = some row
            rw [List.cons_append,
              List.find?_cons_of_neg (p := fun r : RowData => r.id == id) _ hpa]
            rw [hf] at ih
            exact ih

theorem handleSaveOrUpdate_receipts (st : SheetState) (data : ReceiptData) (now : Nat) :
    (handleSaveOrUpdate st data now).1.receipts =
      (match findRowById st.receipts data.id with
        | some i => st.receipts.set i (toRowData data now)
        | none => st.receipts ++ [toRowData data now]) := by
  unfold handleSaveOrUpdate
  cases data.items <;> cases findRowById st.receipts data.id <;> rfl

theorem handleSaveOrUpdate_items (st : SheetState) (data : ReceiptData) (now : Nat)
    (its : List ReceiptItem) (h : data.items = some its) :
    (handleSaveOrUpdate st data now).1.items =
      deleteItemsByReceiptId st.items data.id ++
        (its.enum.map fun e =>
          ({ item_id := st.nextItemId + e.1
             receipt_id := data.id
             name := e.2.name
             quantity := e.2.quantity
             unit := e.2.unit
             unitPrice := e.2.unitPrice
             totalPrice := e.2.totalPrice
             category := e.2.category
             timestamp := now } : ItemRow)) := by
  unfold handleSaveOrUpdate
  rw [h]
  cases findRowById st.receipts data.id <;> rfl

/-- C7: save/list round trip with upsert semantics.  Saving a receipt that
carries an items array and then listing returns, for that id, exactly that
items array (order preserved); the save updates the existing row in place
when the id is present and appends a fresh row otherwise; the items
carried on the payload fully replace the receipt's stored item rows while
other receipts' item rows survive untouched; and the concrete two-item
round trip returns the two items verbatim. -/
theorem C7_save_list_roundtrip :
    (∀ (st : SheetState) (data : ReceiptData) (now : Nat) (its : List ReceiptItem),
        data.items = some its →
        ((handleGet (handleSaveOrUpdate st data now).1).find?
              (fun r => r.id == data.id)).map (fun r => r.items) =
          some (some its)) ∧
    (∀ (st : SheetState) (data : ReceiptData) (now : Nat) (i : Nat),
        findRowById st.receipts data.id = some i →
        (handleSaveOrUpdate st data now).1.receipts =
            st.receipts.set i (toRowData data now) ∧
          (handleSaveOrUpdate st data now).1.receipts.length = st.receipts.length) ∧
    (∀ (st : SheetState) (data : ReceiptData) (now : Nat),
        findRowById st.receipts data.id = none →
        (handleSaveOrUpdate st data now).1.receipts =
          st.receipts ++ [toRowData data now]) ∧
    (∀ (st : SheetState) (data : ReceiptData) (now : Nat) (its : List ReceiptItem),
        data.items = some its →
        (((handleSaveOrUpdate st data now).1.items.filter
              fun row => row.receipt_id == data.id).map itemOfRow = its ∧
          ((handleSaveOrUpdate st data now).1.items.filter
              fun row => !(row.receipt_id == data.id)) =
            st.items.filter fun row => !(row.receipt_id == data.id))) ∧
    (((handleGet
          (handleSaveOrUpdate {}
            { id := "rec1", url := some "http://x/1", status := .completed,
              storeName := some "Loja A", totalAmount := some 30.5,
              items := some
                [{ name := "Arroz", quantity := 1, unit := "UN", unitPrice := 20,
                   totalPrice := 20, category := "Alimentos" },
                 { name := "Leite", quantity := 2, unit := "UN", unitPrice := 5.25,
                   totalPrice := 10.5, category := "Laticínios" }] }
            7).1).map fun r => (r.id, r.items)) =
        [("rec1",
          some
            [{ name := "Arroz", quantity := 1, unit := "UN", unitPrice := 20,
               totalPrice := 20, category := "Alimentos" },
             { name := "Leite", quantity := 2, unit := "UN", unitPrice := 5.25,
               totalPrice := 10.5, category := "Laticínios" }])]) := by
  refine ⟨fun st data now its h => ?_, fun st data now i h => ?_,
    fun st data now h => ?_, fun st data now its h => ⟨?_, ?_⟩, rfl⟩
  · show ((handleSaveOrUpdate st data now).1.receipts.find?
        (fun r => r.id == data.id)).map (fun r => r.items) = some (some its)
    rw [handleSaveOrUpdate_receipts, upsert_find? st.receipts (toRowData data now) data.id rfl]
    simp [toRowData, h]
  · rw [handleSaveOrUpdate_receipts, h]
    exact ⟨rfl, by simp⟩
  · rw [handleSaveOrUpdate_receipts, h]
  · rw [handleSaveOrUpdate_items st data now its h, List.filter_append]
    have h1 : (deleteItemsByReceiptId st.items data.id).filter
        (fun row => row.receipt_id == data.id) = [] := by
      unfold deleteItemsByReceiptId
      rw [List.filter_filter]
      rw [List.filter_congr (q := fun _ => false) (fun x _ => by
        by_cases hx : (x.receipt_id == data.id) = true <;> simp [hx])]
      exact List.filter_false _
    rw [h1, List.nil_append,
      List.filter_eq_self.mpr (by
        intro a ha
        obtain ⟨e, -, rfl⟩ := List.mem_map.mp ha
        simp),
      List.map_map]
    exact List.enum_map_snd its
  · rw [handleSaveOrUpdate_items st data now its h, List.filter_append]
    have h2 : ((its.enum.map fun e =>
        ({ item_id := st.nextItemId + e.1, receipt_id := data.id, name := e.2.name,
           quantity := e.2.quantity, unit := e.2.unit, unitPrice := e.2.unitPrice,
           totalPrice := e.2.totalPrice, category := e.2.category,
           timestamp := now } : ItemRow)).filter
          fun row => !(row.receipt_id == data.id)) = [] := by
      rw [List.filter_eq_nil_iff]
      intro a ha
      obtain ⟨e, -, rfl⟩ := List.mem_map.mp ha
      simp
    rw [h2, List.append_nil]
    unfold deleteItemsByReceiptId
    rw [List.filter_filter]
    exact List.filter_congr fun x _ => by
      by_cases hx : (x.receipt_id == data.id) = true <;> simp [hx]

/-- Witness for C7 at a concrete input: a one-item save into a sheet that
already holds the row (update in place) and one into an empty sheet
(append), with the round trip and the item-row replacement checked. -/
theorem C7_witness :
    ((handleGet
          (handleSaveOrUpdate {}
            { id := "rec1", status := .completed,
              items := some
                [{ name := "Arroz", quantity := 1, unit := "UN", unitPrice := 20,
                   totalPrice := 20, category := "Alimentos" }] }
            7).1).find? (fun r => r.id == "rec1")).map (fun r => r.items) =
      some (some
        [{ name := "Arroz", quantity := 1, unit := "UN", unitPrice := 20,
           totalPrice := 20, category := "Alimentos" }]) ∧
    (handleSaveOrUpdate { receipts := [{ id := "rec1" }] }
        { id := "rec1", status := .completed } 7).1.receipts =
      [toRowData { id := "rec1", status := .completed } 7] ∧
    (handleSaveOrUpdate {} { id := "rec1", status := .completed } 7).1.receipts =
      [toRowData { id := "rec1", status := .completed } 7] :=
  ⟨by
     exact C7_save_list_roundtrip.1 {}
       { id := "rec1", status := .completed,
         items := some
           [{ name := "Arroz", quantity := 1, unit := "UN", unitPrice := 20,
              totalPrice := 20, category := "Alimentos" }] }
       7 _ rfl,
   by
     have h := (C7_save_list_roundtrip.2.1 { receipts := [{ id := "rec1" }] }
       { id := "rec1", status := .completed } 7 0 rfl).1
     simpa using h,
   by
     have h := C7_save_list_roundtrip.2.2.1 {} { id := "rec1", status := .completed } 7 rfl
     simpa using h⟩

end C7Theorems

section C10Theorems

open ReceiptService

/-- C10: `updateReceiptUrl` bypasses the uniqueness check.  The call
rewrites exactly the `url` field of the records carrying the id, leaves
every other record unchanged, issues no remote save — and therefore, at a
concrete two-record state satisfying the insertion-time uniqueness
invariant, renaming the second record's url onto the first's produces two
records sharing the same non-empty url. -/
theorem C10_updateReceiptUrl_bypasses_uniqueness :
    (∀ (rs : List ReceiptData) (receiptId newUrl : String),
        (updateReceiptUrl rs receiptId newUrl).1.length = rs.length) ∧
    (∀ (rs : List ReceiptData) (receiptId newUrl : String) (i : Nat) (r : ReceiptData),
        rs[i]? = some r →
        (updateReceiptUrl rs receiptId newUrl).1[i]? =
          some (if r.id == receiptId then { r with url := some newUrl } else r)) ∧
    (∀ (rs : List ReceiptData) (receiptId newUrl : String),
        (updateReceiptUrl rs receiptId newUrl).2 = none) ∧
    (urlsUnique
        [{ id := "a", url := some "http://x/1", status := .completed },
         { id := "b", url := some "http://y/2", status := .completed }] ∧
      ((updateReceiptUrl
            [{ id := "a", url := some "http://x/1", status := .completed },
             { id := "b", url := some "http://y/2", status := .completed }]
            "b" "http://x/1").1.map fun r => r.url) =
          [some "http://x/1", some "http://x/1"] ∧
      ¬ urlsUnique
          (updateReceiptUrl
            [{ id := "a", url := some "http://x/1", status := .completed },
             { id := "b", url := some "http://y/2", status := .completed }]
            "b" "http://x/1").1) := by
  refine ⟨fun rs receiptId newUrl => by simp [updateReceiptUrl],
    fun rs receiptId newUrl i r h => ?_, fun rs receiptId newUrl => rfl, ?_, rfl, ?_⟩
  · simp [updateReceiptUrl, List.getElem?_map, h]
  · refine List.Pairwise.cons (fun b hb u hu ha => ?_) (List.pairwise_singleton _ _)
    rw [List.mem_singleton] at hb
    subst hb
    have hx : u = "http://x/1" := by simpa using ha.symm
    subst hx
    simp
  · intro h
    have h2 := (List.pairwise_cons.mp h).1
    exact h2 _ (List.mem_singleton_self _) "http://x/1" (by decide) rfl rfl

/-- Witness for C10 at a concrete input: the url field of the matching
record is replaced in place. -/
theorem C10_witness :
    (updateReceiptUrl [{ id := "a", url := some "http://x/1", status := .completed }]
        "a" "http://z/9").1[0]? =
      some { id := "a", url := some "http://z/9", status := .completed } := by
  have h := C10_updateReceiptUrl_bypasses_uniqueness.2.1
    [{ id := "a", url := some "http://x/1", status := .completed }] "a" "http://z/9" 0
    { id := "a", url := some "http://x/1", status := .completed } rfl
  simpa using h

end C10Theorems

section C9Theorems

open AnalyticsService

theorem mergeSort_singleton {α : Type} (a : α) (le : α → α → Bool) :
    [a].mergeSort le = [a] :=
  List.perm_singleton.mp (List.mergeSort_perm [a] le)

theorem find?_key_of_mem_nodup {α β : Type} [BEq β] [LawfulBEq β] (κ : α → β)
    {l : List α} (hl : (l.map κ).Nodup) {x : α} (hx : x ∈ l) :
    l.find? (fun y => κ y == κ x) = some x := by
  induction l with
  | nil => cases hx
  | cons a t ih =>
      simp only [List.map_cons, List.nodup_cons] at hl
      rcases List.mem_cons.mp hx with rfl | hxt
      · exact List.find?_cons_of_pos _ (by simp)
      · have hk : ¬(κ a == κ x) = true := by
          intro h
          rw [beq_iff_eq] at h
          exact hl.1 (h ▸ List.mem_map_of_mem κ hxt)
        rw [List.find?_cons_of_neg (p := fun y => κ y == κ x) _ hk]
        exact ih hl.2 hxt

theorem dedupFirst_go (l acc : List String) (hacc : acc.Nodup) :
    (l.foldl (fun acc x => if acc.contains x then acc else acc ++ [x]) acc).Nodup ∧
      ∀ x, x ∈ l.foldl (fun acc x => if acc.contains x then acc else acc ++ [x]) acc ↔
        x ∈ acc ∨ x ∈ l := by
  induction l generalizing acc with
  | nil => exact ⟨hacc, fun x => by simp⟩
  | cons a t ih =>
      simp only [List.foldl_cons]
      by_cases h : acc.contains a = true
      · rw [if_pos h]
        obtain ⟨h1, h2⟩ := ih acc hacc
        refine ⟨h1, fun x => ?_⟩
        rw [h2]
        constructor
        · rintro (hx | hx)
          · exact Or.inl hx
          · exact Or.inr (List.mem_cons_of_mem a hx)
        · rintro (hx | hx)
          · exact Or.inl hx
          · rcases List.mem_cons.mp hx with rfl | hx
            · exact Or.inl (by simpa using h)
            · exact Or.inr hx
      · rw [if_neg h]
        have hacc' : (acc ++ [a]).Nodup := by
          rw [List.nodup_append]
          refine ⟨hacc, List.nodup_singleton a, ?_⟩
          intro x hx hx1
          rw [List.mem_singleton] at hx1
          subst hx1
          exact h (by simpa using hx)
        obtain ⟨h1, h2⟩ := ih (acc ++ [a]) hacc'
        refine ⟨h1, fun x => ?_⟩
        rw [h2]
        constructor
        · rintro (hx | hx)
          · rcases List.mem_append.mp hx with hx | hx
            · exact Or.inl hx
            · exact Or.inr (by simpa using Or.inl (List.mem_singleton.mp hx))
          · exact Or.inr (List.mem_cons_of_mem a hx)
        · rintro (hx | hx)
          · exact Or.inl (List.mem_append_left _ hx)
          · rcases List.mem_cons.mp hx with rfl | hx
            · exact Or.inl (List.mem_append_right _ (List.mem_singleton_self x))
            · exact Or.inr hx

theorem dedupFirst_nodup (l : List String) : (dedupFirst l).Nodup :=
  (dedupFirst_go l [] List.nodup_nil).1

theorem mem_dedupFirst {l : List String} {x : String} : x ∈ dedupFirst l ↔ x ∈ l := by
  rw [dedupFirst]
  rw [(dedupFirst_go l [] List.nodup_nil).2 x]
  simp

theorem lookupKey_insertAll (L : List ((String × String) × Rat))
    (m : List ((String × String) × Rat)) (k : String × String) :
    lookupKey (insertAll m L) k = (lookupKey m k).or (lookupKey L k) := by
  induction L generalizing m with
  | nil => simp [insertAll, lookupKey]
  | cons e rest ih =>
      show lookupKey (insertAll (pairInsert m e.1 e.2) rest) k = _
      rw [ih]
      by_cases hek : (e.1 == k) = true
      · have hkk : lookupKey (e :: rest) k = some e.2 := by
          unfold lookupKey
          rw [List.find?_cons_of_pos
            (p := fun x : (String × String) × Rat => x.1 == k) _ hek]
          rfl
        rw [hkk]
        rw [beq_iff_eq] at hek
        subst hek
        by_cases hm : (m.any fun x => x.1 == e.1) = true
        · have hins : pairInsert m e.1 e.2 = m := by
            unfold pairInsert
            rw [if_pos hm]
          rw [hins]
          obtain ⟨x, hxm, hx1⟩ := List.any_eq_true.mp hm
          have : (m.find? fun y => y.1 == e.1).isSome := by
            rw [List.find?_isSome]
            exact ⟨x, hxm, hx1⟩
          obtain ⟨y, hy⟩ := Option.isSome_iff_exists.mp this
          unfold lookupKey
          rw [hy]
          rfl
        · have hins : pairInsert m e.1 e.2 = m ++ [e] := by
            unfold pairInsert
            rw [if_neg hm]
          rw [hins]
          have hmn : (m.find? fun y => y.1 == e.1) = none := by
            rw [List.find?_eq_none]
            intro x hx hx1
            exact hm (List.any_eq_true.mpr ⟨x, hx, hx1⟩)
          unfold lookupKey
          rw [List.find?_append, hmn]
          rw [List.find?_cons_of_pos
            (p := fun x : (String × String) × Rat => x.1 == e.1) _ (by simp)]
          simp [hmn]
      · have hkk : lookupKey (e :: rest) k = lookupKey rest k := by
          unfold lookupKey
          rw [List.find?_cons_of_neg
            (p := fun x : (String × String) × Rat => x.1 == k) _ hek]
        rw [hkk]
        have hins : lookupKey (pairInsert m e.1 e.2) k = lookupKey m k := by
          unfold pairInsert
          by_cases hm : (m.any fun x => x.1 == e.1) = true
          · rw [if_pos hm]
          · rw [if_neg hm]
            unfold lookupKey
            rw [List.find?_append,
              List.find?_singleton]
            rw [if_neg (by simpa using hek)]
            simp
        rw [hins]

theorem insertAll_keys_nodup (L : List ((String × String) × Rat))
    (m : List ((String × String) × Rat)) (hm : (m.map fun e => e.1).Nodup) :
    ((insertAll m L).map fun e => e.1).Nodup := by
  induction L generalizing m with
  | nil => exact hm
  | cons e rest ih =>
      show ((insertAll (pairInsert m e.1 e.2) rest).map fun e => e.1).Nodup
      refine ih _ ?_
      unfold pairInsert
      by_cases hany : (m.any fun x => x.1 == e.1) = true
      · rw [if_pos hany]; exact hm
      · rw [if_neg hany]
        rw [List.map_append, List.nodup_append]
        refine ⟨hm, by simp, ?_⟩
        intro x hx hx1
        simp only [List.map_cons, List.map_nil, List.mem_singleton] at hx1
        subst hx1
        obtain ⟨y, hy, hy1⟩ := List.mem_map.mp hx
        exact hany (List.any_eq_true.mpr ⟨y, hy, by simp [hy1]⟩)

theorem mem_insertAll (L : List ((String × String) × Rat))
    (m : List ((String × String) × Rat)) :
    ∀ x ∈ insertAll m L, x ∈ m ∨ x ∈ L := by
  induction L generalizing m with
  | nil => exact fun x hx => Or.inl hx
  | cons e rest ih =>
      intro x hx
      rcases ih (pairInsert m e.1 e.2) x hx with hx1 | hx1
      · unfold pairInsert at hx1
        by_cases hany : (m.any fun y => y.1 == e.1) = true
        · rw [if_pos hany] at hx1
          exact Or.inl hx1
        · rw [if_neg hany] at hx1
          rcases List.mem_append.mp hx1 with hx2 | hx2
          · exact Or.inl hx2
          · rw [List.mem_singleton] at hx2
            exact Or.inr (hx2 ▸ List.mem_cons_self e rest)
      · exact Or.inr (List.mem_cons_of_mem e hx1)

theorem pairLatestPrices_eq (analytics : List ProductPriceInfo)
    (ni : List String) :
    pairLatestPrices analytics ni = insertAll [] (priceStream analytics ni) := by
  suffices h : ∀ m : List ((String × String) × Rat),
      analytics.foldl
        (fun m product =>
          if ni.contains (normalize product.name) then
            product.purchases.foldl
              (fun m purchase =>
                pairInsert m (normalize product.name, purchase.storeName)
                  purchase.unitPrice)
              m
          else m)
        m = insertAll m (priceStream analytics ni) by
    exact h []
  induction analytics with
  | nil => intro m; rfl
  | cons p rest ih =>
      intro m
      rw [List.foldl_cons]
      show _ = insertAll m (priceStream (p :: rest) ni)
      rw [priceStream, List.flatMap_cons]
      rw [insertAll, List.foldl_append]
      by_cases hc : ni.contains (normalize p.name) = true
      · rw [if_pos hc, if_pos hc]
        rw [List.foldl_map]
        exact ih _
      · rw [if_neg hc, if_neg hc]
        exact ih _

theorem mem_priceStream {analytics : List ProductPriceInfo} {ni : List String}
    {x : (String × String) × Rat} (hx : x ∈ priceStream analytics ni) :
    ni.contains x.1.1 = true := by
  obtain ⟨p, -, hxp⟩ := List.mem_flatMap.mp hx
  by_cases hc : ni.contains (normalize p.name) = true
  · rw [if_pos hc] at hxp
    obtain ⟨pu, -, rfl⟩ := List.mem_map.mp hxp
    exact hc
  · rw [if_neg hc] at hxp
    cases hxp

theorem lookupKey_priceStream (analytics : List ProductPriceInfo)
    (ni : List String) (n s : String) (hn : ni.contains n = true) :
    lookupKey (priceStream analytics ni) (n, s) = firstPriceAt analytics n s := by
  induction analytics with
  | nil => rfl
  | cons p rest ih =>
      rw [show priceStream (p :: rest) ni =
        (if ni.contains (normalize p.name) then
          p.purchases.map fun pu => ((normalize p.name, pu.storeName), pu.unitPrice)
        else []) ++ priceStream rest ni from List.flatMap_cons ..]
      have hsplit : ∀ B S' : List ((String × String) × Rat),
          lookupKey (B ++ S') (n, s) =
            (lookupKey B (n, s)).or (lookupKey S' (n, s)) := by
        intro B S'
        unfold lookupKey
        rw [List.find?_append]
        cases B.find? fun e => e.1 == (n, s) <;> simp
      rw [hsplit]
      by_cases hnp : normalize p.name = n
      · rw [if_pos (hnp ▸ hn)]
        have hB : lookupKey
            (p.purchases.map fun pu => ((normalize p.name, pu.storeName), pu.unitPrice))
              (n, s) =
            ((p.purchases.find? fun pu => pu.storeName == s).map fun pu => pu.unitPrice) := by
          unfold lookupKey
          rw [List.find?_map]
          have hcong : ((fun e : (String × String) × Rat => e.1 == (n, s)) ∘
              fun pu : ProductPurchase =>
                ((normalize p.name, pu.storeName), pu.unitPrice)) =
              fun pu : ProductPurchase => pu.storeName == s := by
            funext pu
            simp [Function.comp, hnp, Prod.ext_iff]
          rw [hcong]
          cases p.purchases.find? fun pu => pu.storeName == s <;> rfl
        have hR : firstPriceAt (p :: rest) n s =
            ((p.purchases.find? fun pu => pu.storeName == s).map
                fun pu => pu.unitPrice).or (firstPriceAt rest n s) := by
          unfold firstPriceAt
          rw [List.filter_cons, if_pos (by simp [hnp]), List.flatMap_cons,
            List.find?_append]
          cases p.purchases.find? fun pu => pu.storeName == s <;> simp
        rw [hR, hB, ih]
      · have hfilter : firstPriceAt (p :: rest) n s = firstPriceAt rest n s := by
          unfold firstPriceAt
          rw [List.filter_cons, if_neg (by simp [hnp])]
        rw [hfilter]
        by_cases hc : ni.contains (normalize p.name) = true
        · rw [if_pos hc]
          have hB : lookupKey
              (p.purchases.map fun pu => ((normalize p.name, pu.storeName), pu.unitPrice))
                (n, s) = none := by
            have hfind : (List.find? (fun e => e.1 == (n, s))
                (p.purchases.map fun pu =>
                  ((normalize p.name, pu.storeName), pu.unitPrice))) = none := by
              rw [List.find?_eq_none]
              intro x hx
              obtain ⟨pu, -, rfl⟩ := List.mem_map.mp hx
              simp [Prod.ext_iff, hnp]
            unfold lookupKey
            rw [hfind]
            rfl
          rw [hB, Option.none_or]
          exact ih
        · rw [if_neg hc]
          show (Option.none.or (lookupKey (priceStream rest ni) (n, s))) = _
          rw [Option.none_or]
          exact ih

theorem findSim_nil (s : String) : findSim [] s = none := rfl

theorem findSim_cons_pos {a : StoreSim} {s : String} (l : List StoreSim)
    (h : (a.storeName == s) = true) : findSim (a :: l) s = some a :=
  List.find?_cons_of_pos (p := fun t : StoreSim => t.storeName == s) _ h

theorem findSim_cons_neg {a : StoreSim} {s : String} (l : List StoreSim)
    (h : ¬(a.storeName == s) = true) : findSim (a :: l) s = findSim l s :=
  List.find?_cons_of_neg (p := fun t : StoreSim => t.storeName == s) _ h

theorem upsert_nil (store itemName : String) (price : Rat) :
    upsertStoreSim store itemName price [] = [newSim store itemName price] := rfl

theorem upsert_cons_pos {a : StoreSim} {store : String} (itemName : String)
    (price : Rat) (rest : List StoreSim) (h : (a.storeName == store) = true) :
    upsertStoreSim store itemName price (a :: rest) =
      (if a.foundItems.contains itemName then a else bumpSim a itemName price) :: rest := by
  unfold upsertStoreSim
  rw [if_pos h]
  rfl

theorem upsert_cons_neg {a : StoreSim} {store : String} (itemName : String)
    (price : Rat) (rest : List StoreSim) (h : ¬(a.storeName == store) = true) :
    upsertStoreSim store itemName price (a :: rest) =
      a :: upsertStoreSim store itemName price rest := by
  unfold upsertStoreSim
  rw [if_neg h]
  cases rest <;> rfl

theorem findSim_upsert_ne (store itemName : String) (price : Rat)
    (sims : List StoreSim) (s : String) (hs : ¬(store == s) = true) :
    findSim (upsertStoreSim store itemName price sims) s = findSim sims s := by
  induction sims with
  | nil =>
      rw [upsert_nil, findSim_nil, findSim_cons_neg _ (by simpa [newSim] using hs)]
      rfl
  | cons t rest ih =>
      by_cases ht : (t.storeName == store) = true
      · have hts : ¬(t.storeName == s) = true := by
          rw [beq_iff_eq] at ht
          rw [ht]
          exact hs
        rw [upsert_cons_pos itemName price rest ht]
        by_cases hc : t.foundItems.contains itemName = true
        · rw [if_pos hc]
        · rw [if_neg hc, findSim_cons_neg _ (by simpa [bumpSim] using hts),
            findSim_cons_neg _ hts]
      · rw [upsert_cons_neg itemName price rest ht]
        by_cases hts : (t.storeName == s) = true
        · rw [findSim_cons_pos _ hts, findSim_cons_pos _ hts]
        · rw [findSim_cons_neg _ hts, findSim_cons_neg _ hts]
          exact ih

theorem findSim_upsert_self_none (store itemName : String) (price : Rat)
    (sims : List StoreSim) (h : findSim sims store = none) :
    findSim (upsertStoreSim store itemName price sims) store =
      some (newSim store itemName price) := by
  induction sims with
  | nil => rw [upsert_nil, findSim_cons_pos _ (by simp [newSim])]
  | cons t rest ih =>
      by_cases ht : (t.storeName == store) = true
      · rw [findSim_cons_pos _ ht] at h
        cases h
      · rw [findSim_cons_neg _ ht] at h
        rw [upsert_cons_neg itemName price rest ht, findSim_cons_neg _ ht]
        exact ih h

theorem findSim_upsert_self_some (store itemName : String) (price : Rat)
    (sims : List StoreSim) (t : StoreSim) (h : findSim sims store = some t)
    (hni : itemName ∉ t.foundItems) :
    findSim (upsertStoreSim store itemName price sims) store =
      some (bumpSim t itemName price) := by
  induction sims with
  | nil => cases h
  | cons a rest ih =>
      by_cases ha : (a.storeName == store) = true
      · rw [findSim_cons_pos _ ha] at h
        have hat : a = t := Option.some.inj h
        subst hat
        have hc : a.foundItems.contains itemName = false := by
          rw [← Bool.not_eq_true]
          intro hcc
          exact hni (List.elem_iff.mp hcc)
        rw [upsert_cons_pos itemName price rest ha, hc]
        rw [if_neg (by simp)]
        exact findSim_cons_pos _ (by simpa [bumpSim] using ha)
      · rw [findSim_cons_neg _ ha] at h
        rw [upsert_cons_neg itemName price rest ha, findSim_cons_neg _ ha]
        exact ih h

theorem mem_upsertStoreSim (store itemName : String) (price : Rat)
    (sims : List StoreSim) :
    ∀ t' ∈ upsertStoreSim store itemName price sims,
      t' ∈ sims ∨
        (∃ t ∈ sims, t.storeName = store ∧ t' = bumpSim t itemName price) ∨
        t' = newSim store itemName price := by
  induction sims with
  | nil =>
      intro t' ht'
      rw [upsert_nil] at ht'
      rcases List.mem_singleton.mp ht' with rfl
      exact Or.inr (Or.inr rfl)
  | cons a rest ih =>
      intro t' ht'
      by_cases ha : (a.storeName == store) = true
      · rw [upsert_cons_pos itemName price rest ha] at ht'
        rcases List.mem_cons.mp ht' with rfl | hmem
        · by_cases hc : a.foundItems.contains itemName = true
          · rw [if_pos hc]
            exact Or.inl (List.mem_cons_self a rest)
          · rw [if_neg hc]
            exact Or.inr (Or.inl ⟨a, List.mem_cons_self a rest, beq_iff_eq.mp ha, rfl⟩)
        · exact Or.inl (List.mem_cons_of_mem a hmem)
      · rw [upsert_cons_neg itemName price rest ha] at ht'
        rcases List.mem_cons.mp ht' with rfl | hmem
        · exact Or.inl (List.mem_cons_self t' rest)
        · rcases ih t' hmem with h1 | h1 | h1
          · exact Or.inl (List.mem_cons_of_mem a h1)
          · obtain ⟨t, htr, hts, hte⟩ := h1
            exact Or.inr (Or.inl ⟨t, List.mem_cons_of_mem a htr, hts, hte⟩)
          · exact Or.inr (Or.inr h1)

theorem upsert_storeNames_nodup (store itemName : String) (price : Rat)
    (sims : List StoreSim) (h : (sims.map fun t => t.storeName).Nodup) :
    ((upsertStoreSim store itemName price sims).map fun t => t.storeName).Nodup := by
  induction sims with
  | nil =>
      rw [upsert_nil]
      simp [newSim]
  | cons a rest ih =>
      simp only [List.map_cons, List.nodup_cons] at h
      by_cases ha : (a.storeName == store) = true
      · rw [upsert_cons_pos itemName price rest ha]
        by_cases hc : a.foundItems.contains itemName = true
        · rw [if_pos hc]
          simp only [List.map_cons, List.nodup_cons]
          exact ⟨h.1, h.2⟩
        · rw [if_neg hc]
          simp only [List.map_cons, List.nodup_cons]
          exact ⟨by simpa [bumpSim] using h.1, h.2⟩
      · rw [upsert_cons_neg itemName price rest ha]
        rw [List.map_cons, List.nodup_cons]
        refine ⟨?_, ih h.2⟩
        intro hmem
        obtain ⟨t', ht', hts⟩ := List.mem_map.mp hmem
        rcases mem_upsertStoreSim store itemName price rest t' ht' with h1 | h1 | h1
        · exact h.1 (hts ▸ List.mem_map_of_mem _ h1)
        · obtain ⟨t, htr, htstore, rfl⟩ := h1
          exact h.1 (hts ▸ List.mem_map_of_mem (fun t => t.storeName) htr)
        · subst h1
          exact ha (by simp [newSim] at hts ⊢; rw [hts])

theorem mergeEntry_nil (s : String) (prev : Option StoreSim) :
    mergeEntry s prev [] = prev := by
  cases prev with
  | none => rfl
  | some t =>
      simp only [mergeEntry, List.map_nil, List.sum_nil, add_zero, List.append_nil]

theorem foldSim_storeNames_nodup (L : List ((String × String) × Rat))
    (sims0 : List StoreSim) (h : (sims0.map fun t => t.storeName).Nodup) :
    (((L.foldl (fun sims e => upsertStoreSim e.1.2 e.1.1 e.2 sims) sims0).map
        fun t => t.storeName)).Nodup := by
  induction L generalizing sims0 with
  | nil => exact h
  | cons e rest ih =>
      rw [List.foldl_cons]
      exact ih _ (upsert_storeNames_nodup _ _ _ _ h)

theorem foldSim_go (L : List ((String × String) × Rat)) (sims0 : List StoreSim)
    (s : String) (hkeys : (L.map fun e => e.1).Nodup)
    (hdisj : ∀ e ∈ L, ∀ t ∈ sims0, t.storeName = e.1.2 → e.1.1 ∉ t.foundItems) :
    findSim (L.foldl (fun sims e => upsertStoreSim e.1.2 e.1.1 e.2 sims) sims0) s =
      mergeEntry s (findSim sims0 s) (rowsFor s L) := by
  induction L generalizing sims0 with
  | nil =>
      rw [List.foldl_nil, show rowsFor s [] = [] from rfl, mergeEntry_nil]
  | cons e rest ih =>
      rw [List.foldl_cons]
      simp only [List.map_cons, List.nodup_cons] at hkeys
      have hdisj' : ∀ e' ∈ rest, ∀ t ∈ upsertStoreSim e.1.2 e.1.1 e.2 sims0,
          t.storeName = e'.1.2 → e'.1.1 ∉ t.foundItems := by
        intro e' he' t ht hstore hmem'
        rcases mem_upsertStoreSim e.1.2 e.1.1 e.2 sims0 t ht with h1 | h1 | h1
        · exact hdisj e' (List.mem_cons_of_mem e he') t h1 hstore hmem'
        · obtain ⟨t0, ht0, ht0store, rfl⟩ := h1
          rcases List.mem_append.mp hmem' with hmem0 | hmem0
          · exact hdisj e' (List.mem_cons_of_mem e he') t0 ht0 hstore hmem0
          · rw [List.mem_singleton] at hmem0
            apply hkeys.1
            have hkeq : e'.1 = e.1 := by
              apply Prod.ext
              · exact hmem0
              · rw [← hstore]
                exact ht0store
            rw [← hkeq]
            exact List.mem_map_of_mem _ he'
        · subst h1
          simp only [newSim, List.mem_singleton] at hmem'
          simp only [newSim] at hstore
          apply hkeys.1
          have hkeq : e'.1 = e.1 := Prod.ext hmem' hstore.symm
          rw [← hkeq]
          exact List.mem_map_of_mem _ he'
      rw [ih _ hkeys.2 hdisj']
      by_cases hes : (e.1.2 == s) = true
      · have hrows : rowsFor s (e :: rest) = e :: rowsFor s rest := by
          unfold rowsFor
          rw [List.filter_cons, if_pos hes]
        rw [hrows]
        rw [beq_iff_eq] at hes
        subst hes
        cases hfind : findSim sims0 e.1.2 with
        | none =>
            rw [findSim_upsert_self_none _ _ _ _ hfind]
            simp [mergeEntry, newSim]
        | some t =>
            have htmem : t ∈ sims0 :=
              List.mem_of_find?_eq_some
                (p := fun t : StoreSim => t.storeName == e.1.2) hfind
            have hstore : t.storeName = e.1.2 :=
              beq_iff_eq.mp
                (List.find?_some (p := fun t : StoreSim => t.storeName == e.1.2) hfind)
            have hni : e.1.1 ∉ t.foundItems :=
              hdisj e (List.mem_cons_self e rest) t htmem hstore
            rw [findSim_upsert_self_some _ _ _ _ t hfind hni]
            simp [mergeEntry, bumpSim, add_assoc]
      · have hrows : rowsFor s (e :: rest) = rowsFor s rest := by
          unfold rowsFor
          rw [List.filter_cons, if_neg hes]
        rw [hrows, findSim_upsert_ne _ _ _ _ _ hes]

theorem filterMap_eq_filter_map_getD {α β : Type} (f : α → Option β) (l : List α)
    (d : β) :
    l.filterMap f = (l.filter fun a => (f a).isSome).map fun a => (f a).getD d := by
  induction l with
  | nil => rfl
  | cons a t ih =>
      rw [List.filterMap_cons, List.filter_cons]
      cases hf : f a with
      | none => simp [hf, ih]
      | some b => simp [hf, ih]

theorem rankLe_trans (a b c : SimResult) (h1 : rankLe a b = true)
    (h2 : rankLe b c = true) : rankLe a c = true := by
  unfold rankLe at h1 h2 ⊢
  by_cases hab : (a.foundItems == b.foundItems) = true
  · rw [if_pos hab] at h1
    rw [beq_iff_eq] at hab
    by_cases hbc : (b.foundItems == c.foundItems) = true
    · rw [if_pos hbc] at h2
      rw [beq_iff_eq] at hbc
      rw [if_pos (by rw [beq_iff_eq]; omega)]
      exact decide_eq_true (le_trans (of_decide_eq_true h1) (of_decide_eq_true h2))
    · rw [if_neg hbc] at h2
      rw [beq_iff_eq] at hbc
      have hlt : c.foundItems < b.foundItems := of_decide_eq_true h2
      rw [if_neg (by rw [beq_iff_eq]; omega)]
      exact decide_eq_true (by omega)
  · rw [if_neg hab] at h1
    rw [beq_iff_eq] at hab
    have hlt1 : b.foundItems < a.foundItems := of_decide_eq_true h1
    by_cases hbc : (b.foundItems == c.foundItems) = true
    · rw [beq_iff_eq] at hbc
      rw [if_neg (by rw [beq_iff_eq]; omega)]
      exact decide_eq_true (by omega)
    · rw [if_neg hbc] at h2
      rw [beq_iff_eq] at hbc
      have hlt2 : c.foundItems < b.foundItems := of_decide_eq_true h2
      rw [if_neg (by rw [beq_iff_eq]; omega)]
      exact decide_eq_true (by omega)

theorem rankLe_total (a b : SimResult) : (rankLe a b || rankLe b a) = true := by
  unfold rankLe
  by_cases hab : (a.foundItems == b.foundItems) = true
  · have hba : (b.foundItems == a.foundItems) = true := by
      rw [beq_iff_eq] at hab ⊢
      omega
    rw [if_pos hab, if_pos hba]
    rcases le_total a.total b.total with h | h
    · rw [decide_eq_true h, Bool.true_or]
    · rw [decide_eq_true h, Bool.or_true]
  · have hba : ¬(b.foundItems == a.foundItems) = true := by
      rw [beq_iff_eq] at hab ⊢
      omega
    rw [if_neg hab, if_neg hba]
    rw [beq_iff_eq] at hab
    rcases Nat.lt_or_ge b.foundItems a.foundItems with h | h
    · rw [decide_eq_true h, Bool.true_or]
    · have h2 : a.foundItems < b.foundItems := by omega
      rw [decide_eq_true h2, Bool.or_true]

theorem splitPipeAux_no_pipe (cs : List Char) :
    ∀ acc : List Char, (∀ c ∈ cs, ¬c = '|') →
      splitPipeAux cs acc = [⟨acc.reverse ++ cs⟩] := by
  induction cs with
  | nil =>
      intro acc h
      simp [splitPipeAux]
  | cons c t ih =>
      intro acc h
      have hc : ¬(c == '|') = true := by
        simpa using h c (List.mem_cons_self c t)
      show (if c == '|' then ⟨acc.reverse⟩ :: splitPipeAux t []
            else splitPipeAux t (c :: acc)) = _
      rw [if_neg hc, ih (c :: acc) fun x hx => h x (List.mem_cons_of_mem c hx)]
      simp [List.append_assoc]

theorem splitPipeAux_pipe (cs : List Char) :
    ∀ acc rest : List Char, (∀ c ∈ cs, ¬c = '|') →
      splitPipeAux (cs ++ '|' :: rest) acc =
        ⟨acc.reverse ++ cs⟩ :: splitPipeAux rest [] := by
  induction cs with
  | nil =>
      intro acc rest h
      show (if '|' == '|' then ⟨acc.reverse⟩ :: splitPipeAux rest []
            else splitPipeAux rest ('|' :: acc)) = _
      rw [if_pos (by simp)]
      simp
  | cons c t ih =>
      intro acc rest h
      have hc : ¬(c == '|') = true := by
        simpa using h c (List.mem_cons_self c t)
      show (if c == '|' then ⟨acc.reverse⟩ :: splitPipeAux (t ++ '|' :: rest) []
            else splitPipeAux (t ++ '|' :: rest) (c :: acc)) = _
      rw [if_neg hc, ih (c :: acc) rest fun x hx => h x (List.mem_cons_of_mem c hx)]
      simp [List.append_assoc]

theorem splitPipe_encode (n s : String) (hn : pipeFree n) (hs : pipeFree s) :
    splitPipe (n ++ "|" ++ s) = [n, s] := by
  have hdata : (n ++ "|" ++ s).data = n.data ++ '|' :: s.data := by
    rw [String.data_append, String.data_append]
    simp
  unfold splitPipe
  rw [hdata]
  rw [splitPipeAux_pipe n.data [] s.data fun c hc hce => hn (hce ▸ hc)]
  rw [splitPipeAux_no_pipe s.data [] fun c hc hce => hs (hce ▸ hc)]
  simp

theorem encode_key_inj {n1 s1 n2 s2 : String}
    (hn1 : pipeFree n1) (hs1 : pipeFree s1) (hn2 : pipeFree n2) (hs2 : pipeFree s2)
    (h : n1 ++ "|" ++ s1 = n2 ++ "|" ++ s2) : n1 = n2 ∧ s1 = s2 := by
  have h1 := splitPipe_encode n1 s1 hn1 hs1
  rw [h, splitPipe_encode n2 s2 hn2 hs2] at h1
  simp only [List.cons.injEq, and_true] at h1
  exact ⟨h1.1.symm, h1.2.symm⟩

theorem strInsertAll_map (L : List ((String × String) × Rat)) :
    ∀ m : List ((String × String) × Rat),
      (∀ e ∈ L, pipeFree e.1.1 ∧ pipeFree e.1.2) →
      (∀ e ∈ m, pipeFree e.1.1 ∧ pipeFree e.1.2) →
      strInsertAll (m.map encodeEntry) (L.map encodeEntry) =
        (insertAll m L).map encodeEntry := by
  induction L with
  | nil => intro m _ _; rfl
  | cons e rest ih =>
      intro m hL hm
      have he : pipeFree e.1.1 ∧ pipeFree e.1.2 := hL e (List.mem_cons_self e rest)
      have hany : ((m.map encodeEntry).any fun x => x.1 == (encodeEntry e).1) =
          (m.any fun x => x.1 == e.1) := by
        rw [Bool.eq_iff_iff, List.any_eq_true, List.any_eq_true]
        constructor
        · rintro ⟨y, hy, hbe⟩
          obtain ⟨x, hx, rfl⟩ := List.mem_map.mp hy
          refine ⟨x, hx, ?_⟩
          rw [beq_iff_eq] at hbe
          have hxp := hm x hx
          have hinj := encode_key_inj hxp.1 hxp.2 he.1 he.2 hbe
          rw [beq_iff_eq]
          exact Prod.ext hinj.1 hinj.2
        · rintro ⟨x, hx, hbe⟩
          refine ⟨encodeEntry x, List.mem_map_of_mem encodeEntry hx, ?_⟩
          rw [beq_iff_eq] at hbe
          rw [beq_iff_eq]
          show x.1.1 ++ "|" ++ x.1.2 = e.1.1 ++ "|" ++ e.1.2
          rw [hbe]
      have hstep : insertLatestPrice (m.map encodeEntry) (encodeEntry e).1
          (encodeEntry e).2 = (pairInsert m e.1 e.2).map encodeEntry := by
        unfold insertLatestPrice pairInsert
        rw [hany]
        by_cases hm2 : (m.any fun x => x.1 == e.1) = true
        · rw [if_pos hm2, if_pos hm2]
        · rw [if_neg hm2, if_neg hm2, List.map_append]
          rfl
      have hm' : ∀ x ∈ pairInsert m e.1 e.2, pipeFree x.1.1 ∧ pipeFree x.1.2 := by
        intro x hx
        unfold pairInsert at hx
        by_cases hm2 : (m.any fun y => y.1 == e.1) = true
        · rw [if_pos hm2] at hx
          exact hm x hx
        · rw [if_neg hm2] at hx
          rcases List.mem_append.mp hx with h1 | h1
          · exact hm x h1
          · rw [List.mem_singleton] at h1
            subst h1
            exact he
      show strInsertAll
          (insertLatestPrice (m.map encodeEntry) (encodeEntry e).1 (encodeEntry e).2)
          (rest.map encodeEntry) =
        (insertAll (pairInsert m e.1 e.2) rest).map encodeEntry
      rw [hstep]
      exact ih (pairInsert m e.1 e.2)
        (fun x hx => hL x (List.mem_cons_of_mem e hx)) hm'

theorem buildLatestPrices_eq_str (analytics : List ProductPriceInfo)
    (ni : List String) :
    buildLatestPrices analytics ni =
      strInsertAll [] ((priceStream analytics ni).map encodeEntry) := by
  suffices h : ∀ m : List (String × (String × Rat)),
      analytics.foldl
        (fun m product =>
          if ni.contains (AnalyticsService.normalize product.name) then
            product.purchases.foldl
              (fun m purchase =>
                insertLatestPrice m
                  (AnalyticsService.normalize product.name ++ "|" ++ purchase.storeName)
                  (purchase.storeName, purchase.unitPrice))
              m
          else m)
        m = strInsertAll m ((priceStream analytics ni).map encodeEntry) by
    exact h []
  induction analytics with
  | nil => intro m; rfl
  | cons p rest ih =>
      intro m
      rw [List.foldl_cons]
      show _ = strInsertAll m ((priceStream (p :: rest) ni).map encodeEntry)
      rw [priceStream, List.flatMap_cons, List.map_append]
      rw [strInsertAll, List.foldl_append]
      by_cases hc : ni.contains (AnalyticsService.normalize p.name) = true
      · rw [if_pos hc, if_pos hc]
        have hinner : List.foldl (fun m e => insertLatestPrice m e.1 e.2) m
            ((p.purchases.map fun pu =>
              ((AnalyticsService.normalize p.name, pu.storeName), pu.unitPrice)).map
                encodeEntry) =
          p.purchases.foldl
            (fun m purchase =>
              insertLatestPrice m
                (AnalyticsService.normalize p.name ++ "|" ++ purchase.storeName)
                (purchase.storeName, purchase.unitPrice)) m := by
          rw [List.map_map, List.foldl_map]
          rfl
        rw [hinner]
        exact ih _
      · rw [if_neg hc, if_neg hc]
        exact ih _

theorem priceStream_pipeFree {analytics : List ProductPriceInfo} {ni : List String}
    (hpf : ∀ p ∈ analytics, pipeFree (AnalyticsService.normalize p.name) ∧
        ∀ pu ∈ p.purchases, pipeFree pu.storeName) :
    ∀ e ∈ priceStream analytics ni, pipeFree e.1.1 ∧ pipeFree e.1.2 := by
  intro e he
  obtain ⟨p, hp, hep⟩ := List.mem_flatMap.mp he
  by_cases hc : ni.contains (AnalyticsService.normalize p.name) = true
  · rw [if_pos hc] at hep
    obtain ⟨pu, hpu, rfl⟩ := List.mem_map.mp hep
    exact ⟨(hpf p hp).1, (hpf p hp).2 pu hpu⟩
  · rw [if_neg hc] at hep
    cases hep

theorem pairLatestPrices_pipeFree {analytics : List ProductPriceInfo}
    {ni : List String}
    (hpf : ∀ p ∈ analytics, pipeFree (AnalyticsService.normalize p.name) ∧
        ∀ pu ∈ p.purchases, pipeFree pu.storeName) :
    ∀ e ∈ pairLatestPrices analytics ni, pipeFree e.1.1 ∧ pipeFree e.1.2 := by
  intro e he
  rw [pairLatestPrices_eq] at he
  rcases mem_insertAll (priceStream analytics ni) [] e he with h | h
  · cases h
  · exact priceStream_pipeFree hpf e h

theorem pairLatestPrices_encode (analytics : List ProductPriceInfo)
    (ni : List String)
    (hpf : ∀ p ∈ analytics, pipeFree (AnalyticsService.normalize p.name) ∧
        ∀ pu ∈ p.purchases, pipeFree pu.storeName) :
    buildLatestPrices analytics ni = (pairLatestPrices analytics ni).map encodeEntry := by
  rw [buildLatestPrices_eq_str, pairLatestPrices_eq]
  exact strInsertAll_map (priceStream analytics ni) []
    (priceStream_pipeFree hpf) (by intro x hx; cases hx)

theorem pairStoreSimulation_eq (analytics : List ProductPriceInfo)
    (items : List String)
    (hpf : ∀ p ∈ analytics, pipeFree (AnalyticsService.normalize p.name) ∧
        ∀ pu ∈ p.purchases, pipeFree pu.storeName) :
    storeSimulation analytics items = pairStoreSimulation analytics items := by
  unfold storeSimulation pairStoreSimulation
  rw [pairLatestPrices_encode analytics (items.map AnalyticsService.normalize) hpf,
    List.foldl_map]
  refine List.foldl_ext _ _ _ fun sims e he => ?_
  have hepf : pipeFree e.1.1 ∧ pipeFree e.1.2 :=
    pairLatestPrices_pipeFree hpf e he
  show upsertStoreSim ((splitPipe (e.1.1 ++ "|" ++ e.1.2)).getD 1 "")
      ((splitPipe (e.1.1 ++ "|" ++ e.1.2)).getD 0 "") e.2 sims =
    upsertStoreSim e.1.2 e.1.1 e.2 sims
  rw [splitPipe_encode e.1.1 e.1.2 hepf.1 hepf.2]
  rfl

theorem simEntry_char (analytics : List ProductPriceInfo) (items : List String)
    (data : StoreSim) (hdata : data ∈ pairStoreSimulation analytics items) :
    data.total = specTotal analytics items data.storeName ∧
      data.foundItems.length = specFound analytics items data.storeName ∧
      ∀ n, n ∈ data.foundItems ↔
        (n ∈ items.map AnalyticsService.normalize ∧
          (firstPriceAt analytics n data.storeName).isSome = true) := by
  have hLS : pairLatestPrices analytics (items.map AnalyticsService.normalize) =
      insertAll [] (priceStream analytics (items.map AnalyticsService.normalize)) :=
    pairLatestPrices_eq analytics (items.map AnalyticsService.normalize)
  have hkeys : ((pairLatestPrices analytics (items.map AnalyticsService.normalize)).map
      fun e => e.1).Nodup := by
    rw [hLS]
    exact insertAll_keys_nodup _ [] (by simp)
  have hnodupStores : ((pairStoreSimulation analytics items).map
      fun t => t.storeName).Nodup :=
    foldSim_storeNames_nodup (pairLatestPrices analytics (items.map AnalyticsService.normalize)) []
      (by simp)
  have hfind : findSim (pairStoreSimulation analytics items) data.storeName = some data := by
    unfold findSim
    exact find?_key_of_mem_nodup (fun t => t.storeName) hnodupStores hdata
  have hchar := foldSim_go (pairLatestPrices analytics (items.map AnalyticsService.normalize)) []
    data.storeName hkeys (by intro e he t ht; cases ht)
  rw [show ((pairLatestPrices analytics (items.map AnalyticsService.normalize)).foldl
      (fun sims e => upsertStoreSim e.1.2 e.1.1 e.2 sims) [] : List StoreSim) =
      pairStoreSimulation analytics items from rfl] at hchar
  rw [hfind] at hchar
  rw [show findSim [] data.storeName = none from rfl] at hchar
  unfold mergeEntry at hchar
  by_cases hbe : (rowsFor data.storeName
      (pairLatestPrices analytics (items.map AnalyticsService.normalize))).isEmpty = true
  · rw [if_pos hbe] at hchar
    cases hchar
  · rw [if_neg hbe] at hchar
    have hdata_eq : data =
        { storeName := data.storeName,
          total := ((rowsFor data.storeName
            (pairLatestPrices analytics (items.map AnalyticsService.normalize))).map fun e => e.2).sum,
          foundItems := (rowsFor data.storeName
            (pairLatestPrices analytics (items.map AnalyticsService.normalize))).map fun e => e.1.1 } :=
      Option.some.inj hchar
    have hrowfacts : ∀ x ∈ rowsFor data.storeName
        (pairLatestPrices analytics (items.map AnalyticsService.normalize)),
        x.1.2 = data.storeName ∧ (items.map AnalyticsService.normalize).contains x.1.1 = true ∧
          firstPriceAt analytics x.1.1 data.storeName = some x.2 := by
      intro x hx
      have hxL : x ∈ pairLatestPrices analytics (items.map AnalyticsService.normalize) :=
        (List.mem_filter.mp hx).1
      have hxs : x.1.2 = data.storeName := beq_iff_eq.mp (List.mem_filter.mp hx).2
      have hxS : x ∈ priceStream analytics (items.map AnalyticsService.normalize) := by
        rcases mem_insertAll (priceStream analytics (items.map AnalyticsService.normalize)) [] x
          (hLS ▸ hxL) with h | h
        · cases h
        · exact h
      have hcont : (items.map AnalyticsService.normalize).contains x.1.1 = true := mem_priceStream hxS
      refine ⟨hxs, hcont, ?_⟩
      have hlk : lookupKey (pairLatestPrices analytics (items.map AnalyticsService.normalize)) x.1 =
          some x.2 := by
        unfold lookupKey
        rw [find?_key_of_mem_nodup (fun e => e.1) hkeys hxL]
        rfl
      rw [hLS, lookupKey_insertAll] at hlk
      rw [show (lookupKey [] x.1 : Option Rat) = none from rfl, Option.none_or] at hlk
      have hx1 : x.1 = (x.1.1, data.storeName) := by
        rw [← hxs]
      rw [hx1, lookupKey_priceStream analytics (items.map AnalyticsService.normalize) x.1.1
        data.storeName hcont] at hlk
      exact hlk
    have hmemiff : ∀ n, n ∈ (rowsFor data.storeName
        (pairLatestPrices analytics (items.map AnalyticsService.normalize))).map (fun e => e.1.1) ↔
        (n ∈ items.map AnalyticsService.normalize ∧
          (firstPriceAt analytics n data.storeName).isSome = true) := by
      intro n
      constructor
      · intro hn
        obtain ⟨x, hx, rfl⟩ := List.mem_map.mp hn
        obtain ⟨-, hcont, hfp⟩ := hrowfacts x hx
        exact ⟨List.elem_iff.mp hcont, by rw [hfp]; rfl⟩
      · rintro ⟨hn, hsome⟩
        obtain ⟨p, hp⟩ := Option.isSome_iff_exists.mp hsome
        have hlkS : lookupKey (priceStream analytics (items.map AnalyticsService.normalize))
            (n, data.storeName) = some p := by
          rw [lookupKey_priceStream analytics (items.map AnalyticsService.normalize) n data.storeName
            (List.elem_iff.mpr hn), hp]
        have hlkL : lookupKey (pairLatestPrices analytics (items.map AnalyticsService.normalize))
            (n, data.storeName) = some p := by
          rw [hLS, lookupKey_insertAll,
            show (lookupKey [] (n, data.storeName) : Option Rat) = none from rfl,
            Option.none_or]
          exact hlkS
        unfold lookupKey at hlkL
        obtain ⟨x, hfx⟩ : ∃ x, (pairLatestPrices analytics (items.map AnalyticsService.normalize)).find?
            (fun e => e.1 == (n, data.storeName)) = some x := by
          cases hf : (pairLatestPrices analytics (items.map AnalyticsService.normalize)).find?
              (fun e => e.1 == (n, data.storeName)) with
          | none => rw [hf] at hlkL; cases hlkL
          | some x => exact ⟨x, rfl⟩
        have hxmem := List.mem_of_find?_eq_some
          (p := fun e : (String × String) × Rat => e.1 == (n, data.storeName)) hfx
        have hxkey : x.1 = (n, data.storeName) :=
          beq_iff_eq.mp (List.find?_some
            (p := fun e : (String × String) × Rat => e.1 == (n, data.storeName)) hfx)
        have hxrows : x ∈ rowsFor data.storeName
            (pairLatestPrices analytics (items.map AnalyticsService.normalize)) :=
          List.mem_filter.mpr ⟨hxmem, by simp [hxkey]⟩
        exact List.mem_map.mpr ⟨x, hxrows, by rw [hxkey]⟩
    have hkeysRows : ((rowsFor data.storeName
        (pairLatestPrices analytics (items.map AnalyticsService.normalize))).map fun e => e.1).Nodup :=
      ((List.filter_sublist _).map (fun e : (String × String) × Rat => e.1)).nodup hkeys
    have hnodupNames : ((rowsFor data.storeName
        (pairLatestPrices analytics (items.map AnalyticsService.normalize))).map
          fun e => e.1.1).Nodup := by
      refine List.Nodup.map_on ?_ (List.Nodup.of_map _ hkeysRows)
      intro x hx y hy hxy
      apply List.inj_on_of_nodup_map hkeysRows hx hy
      apply Prod.ext hxy
      rw [(hrowfacts x hx).1, (hrowfacts y hy).1]
    have hreqnodup : ((requestedNames items).filter
        fun n => (firstPriceAt analytics n data.storeName).isSome).Nodup :=
      (dedupFirst_nodup _).filter _
    have hperm : ((rowsFor data.storeName
        (pairLatestPrices analytics (items.map AnalyticsService.normalize))).map
          (fun e => e.1.1)).Perm
        ((requestedNames items).filter
          fun n => (firstPriceAt analytics n data.storeName).isSome) := by
      refine List.perm_of_nodup_nodup_toFinset_eq hnodupNames hreqnodup ?_
      refine Finset.ext fun n => ?_
      rw [List.mem_toFinset, List.mem_toFinset, hmemiff n, List.mem_filter]
      unfold requestedNames
      rw [mem_dedupFirst]
    refine ⟨?_, ?_, ?_⟩
    · have h1 : data.total = ((rowsFor data.storeName
          (pairLatestPrices analytics (items.map AnalyticsService.normalize))).map fun e => e.2).sum :=
        congrArg StoreSim.total hdata_eq
      rw [h1]
      have h2 : ((rowsFor data.storeName
          (pairLatestPrices analytics (items.map AnalyticsService.normalize))).map fun e => e.2) =
          ((rowsFor data.storeName
            (pairLatestPrices analytics (items.map AnalyticsService.normalize))).map
              fun e => e.1.1).map
            fun n => (firstPriceAt analytics n data.storeName).getD 0 := by
        rw [List.map_map]
        refine List.map_congr_left fun x hx => ?_
        rw [Function.comp_apply, (hrowfacts x hx).2.2]
        rfl
      rw [h2, (hperm.map fun n => (firstPriceAt analytics n data.storeName).getD 0).sum_eq]
      unfold specTotal
      rw [filterMap_eq_filter_map_getD (fun n => firstPriceAt analytics n data.storeName)
        (requestedNames items) 0]
    · have h1 : data.foundItems = (rowsFor data.storeName
          (pairLatestPrices analytics (items.map AnalyticsService.normalize))).map fun e => e.1.1 :=
        congrArg StoreSim.foundItems hdata_eq
      rw [h1]
      unfold specFound
      exact hperm.length_eq
    · intro n
      have h1 : data.foundItems = (rowsFor data.storeName
          (pairLatestPrices analytics (items.map AnalyticsService.normalize))).map fun e => e.1.1 :=
        congrArg StoreSim.foundItems hdata_eq
      rw [h1]
      exact hmemiff n

/-- C9: shopping-list simulation.  The result is ranked by most requested
items found, then lowest total; provided no normalized product name and no
store name contains a bar — the separator of the composite `latestPrices`
key, which is decoded back by splitting, so a bar inside a name shifts the
decoded segments — every result entry reports, for its store, the sum over
the deduplicated requested items of the earliest-listed price of each item
at that store (counted at most once per item), the number of requested
items priced there, and the unpriced requested items in their
original-case spelling; and the concrete one-product scenario returns
`[{storeName:"A", total:5, foundItems:1, missingItems:[]}]`. -/
theorem C9_shopping_simulation :
    (∀ (analytics : List ProductPriceInfo) (items : List String),
        (simulateShoppingList analytics items).Pairwise fun a b =>
          b.foundItems < a.foundItems ∨
            (a.foundItems = b.foundItems ∧ a.total ≤ b.total)) ∧
    (∀ (analytics : List ProductPriceInfo) (items : List String),
        (∀ p ∈ analytics, pipeFree (AnalyticsService.normalize p.name) ∧
            ∀ pu ∈ p.purchases, pipeFree pu.storeName) →
        ∀ e ∈ simulateShoppingList analytics items,
          e.total = specTotal analytics items e.storeName ∧
            e.foundItems = specFound analytics items e.storeName ∧
            e.missingItems = specMissing analytics items e.storeName) ∧
    simulateShoppingList (productsAnalytics [AnalyticsService.scenarioReceipt])
        ["Leite"] =
      [{ storeName := "A", total := 5, foundItems := 1, missingItems := [] }] := by
  refine ⟨fun analytics items => ?_, fun analytics items hpf e he => ?_, ?_⟩
  · have h := List.sorted_mergeSort rankLe_trans rankLe_total (simResults analytics items)
    refine h.imp ?_
    intro a b hab
    unfold rankLe at hab
    by_cases heq : (a.foundItems == b.foundItems) = true
    · rw [if_pos heq] at hab
      exact Or.inr ⟨beq_iff_eq.mp heq, of_decide_eq_true hab⟩
    · rw [if_neg heq] at hab
      exact Or.inl (of_decide_eq_true hab)
  · have he2 : e ∈ simResults analytics items := List.mem_mergeSort.mp he
    rw [show simResults analytics items =
        (storeSimulation analytics items).map (toResult items) from rfl,
      pairStoreSimulation_eq analytics items hpf] at he2
    obtain ⟨data, hdata, rfl⟩ := List.mem_map.mp he2
    obtain ⟨ht, hf, hm⟩ := simEntry_char analytics items data hdata
    refine ⟨ht, hf, ?_⟩
    show ((dedupFirst (items.map AnalyticsService.normalize)).filter
        fun n => !(data.foundItems.contains n)).map
          (fun n => (items.find? fun i => AnalyticsService.normalize i == n).getD n) =
      specMissing analytics items data.storeName
    unfold specMissing requestedNames
    congr 1
    refine List.filter_congr fun n hn => ?_
    have hni : n ∈ items.map AnalyticsService.normalize := mem_dedupFirst.mp hn
    rw [Bool.eq_iff_iff]
    constructor
    · intro hq
      rw [Bool.not_eq_true'] at hq
      have hnmem : n ∉ data.foundItems := by
        intro hmem
        have hcontains : data.foundItems.contains n = true := List.elem_iff.mpr hmem
        rw [hcontains] at hq
        cases hq
      have hns : ¬(firstPriceAt analytics n data.storeName).isSome = true := by
        intro hs
        exact hnmem ((hm n).mpr ⟨hni, hs⟩)
      rw [Bool.not_eq_true] at hns
      exact Option.not_isSome.mp hns
    · intro hq
      have hns : (firstPriceAt analytics n data.storeName).isSome = false :=
        Option.not_isSome.mpr hq
      have hnmem : n ∉ data.foundItems := by
        intro hmem
        have := ((hm n).mp hmem).2
        rw [hns] at this
        cases this
      rw [Bool.not_eq_true']
      rw [← Bool.not_eq_true]
      intro hc
      exact hnmem (List.elem_iff.mp hc)
  · have hPA : productsAnalytics [AnalyticsService.scenarioReceipt] =
        [(⟨"Leite", "Laticínios", [⟨"A", 5, "2024-01-01", 1, "UN"⟩]⟩ :
          ProductPriceInfo)] := by
      show ([(⟨"Leite", "Laticínios",
          List.mergeSort [⟨"A", 5, "2024-01-01", 1, "UN"⟩] purchasesLe⟩ :
            ProductPriceInfo)].mergeSort nameLe) = _
      simp only [mergeSort_singleton]
    rw [hPA]
    show (([(⟨"A", 5, 1, []⟩ : SimResult)].mergeSort rankLe) = _)
    exact mergeSort_singleton _ _

/-- C9, counterexample: with one product `"Leite"` purchased only at the
store `"A|B"` — a store name containing the bar that the `latestPrices`
key uses as separator — the simulator returns an entry for a store named
`"A"` with total 5 and one found item, although no requested item has any
price at a store named `"A"`: the decoded store name is the key segment
between the first and second bar, not the stored store name, so the
per-store total, count and missing-list statements all fail at this
input. -/
theorem C9_counterexample :
    simulateShoppingList pipeScenario ["Leite"] =
        [{ storeName := "A", total := 5, foundItems := 1, missingItems := [] }] ∧
    firstPriceAt pipeScenario "leite" "A" = none ∧
    specTotal pipeScenario ["Leite"] "A" = 0 ∧
    specFound pipeScenario ["Leite"] "A" = 0 ∧
    specMissing pipeScenario ["Leite"] "A" = ["Leite"] ∧
    (5 : Rat) ≠ 0 := by
  refine ⟨?_, rfl, rfl, rfl, rfl, by norm_num⟩
  show ([({ storeName := "A", total := 5, foundItems := 1, missingItems := [] } :
      SimResult)].mergeSort rankLe) = _
  exact mergeSort_singleton _ _

/-- Witness for C9 at the scenario input: the bar-free hypothesis holds
there, the returned entry is a member of the simulation result, and the
specification-side values it must carry evaluate to 5, 1 and the empty
missing list. -/
theorem C9_witness :
    (∀ p ∈ productsAnalytics [AnalyticsService.scenarioReceipt],
        pipeFree (AnalyticsService.normalize p.name) ∧
          ∀ pu ∈ p.purchases, pipeFree pu.storeName) ∧
    ({ storeName := "A", total := 5, foundItems := 1, missingItems := [] } : SimResult) ∈
        simulateShoppingList (productsAnalytics [AnalyticsService.scenarioReceipt])
          ["Leite"] ∧
    specTotal (productsAnalytics [AnalyticsService.scenarioReceipt]) ["Leite"] "A" = 5 ∧
    specFound (productsAnalytics [AnalyticsService.scenarioReceipt]) ["Leite"] "A" = 1 ∧
    specMissing (productsAnalytics [AnalyticsService.scenarioReceipt]) ["Leite"] "A" =
      [] := by
  have hPA : productsAnalytics [AnalyticsService.scenarioReceipt] =
      [(⟨"Leite", "Laticínios", [⟨"A", 5, "2024-01-01", 1, "UN"⟩]⟩ :
        ProductPriceInfo)] := by
    show ([(⟨"Leite", "Laticínios",
        List.mergeSort [⟨"A", 5, "2024-01-01", 1, "UN"⟩] purchasesLe⟩ :
          ProductPriceInfo)].mergeSort nameLe) = _
    simp only [mergeSort_singleton]
  have hpf : ∀ p ∈ productsAnalytics [AnalyticsService.scenarioReceipt],
      pipeFree (AnalyticsService.normalize p.name) ∧
        ∀ pu ∈ p.purchases, pipeFree pu.storeName := by
    rw [hPA]
    decide
  have hmem : (⟨"A", 5, 1, []⟩ : SimResult) ∈
      simulateShoppingList (productsAnalytics [AnalyticsService.scenarioReceipt])
        ["Leite"] := by
    rw [C9_shopping_simulation.2.2]
    exact List.mem_singleton_self _
  obtain ⟨ht, hf, hm⟩ := C9_shopping_simulation.2.1
    (productsAnalytics [AnalyticsService.scenarioReceipt]) ["Leite"] hpf _ hmem
  exact ⟨hpf, hmem, ht.symm, hf.symm, hm.symm⟩

end C9Theorems

end NfFacil
